import Mathlib

/-!
Verification of the structured-output recovery engine of Mini-AI-Studios
(`src/pipeline/secret_helper.py`) and its streaming pipeline orchestrator
(`src/app.py`).

Python values decoded from JSON are modelled by `MiniAI.JValue`; Python
strings are modelled as `List Char`.  Modelling conventions, each noted at
the definition it concerns:
* JSON numbers are modelled as integers (the repository's schema uses only
  integer fields such as `bpm`).
* A Python expression that may raise is modelled as an `Option`, with
  `none` for the raised exception.
* `str()` / `repr()` of containers is modelled faithfully for the shapes
  the claims exercise; `repr` of a string is modelled as quote-wrapping.
-/

namespace MiniAI

/-- A Python string, modelled as its list of characters. -/
abbrev Str := List Char

/-- A JSON-decoded Python value: `None`, `bool`, `int`, `str`, `list`, `dict`.
Object fields keep their literal member list in order. -/
inductive JValue where
  | null : JValue
  | bool : Bool → JValue
  | num  : Int → JValue
  | str  : Str → JValue
  | arr  : List JValue → JValue
  | obj  : List (Str × JValue) → JValue
deriving Repr

/-- Python truthiness: `None`, `False`, `0`, `""`, `[]`, `{}` are falsy. -/
def truthy : JValue → Bool
  | .null => false
  | .bool b => b
  | .num n => n != 0
  | .str s => !s.isEmpty
  | .arr xs => !xs.isEmpty
  | .obj fs => !fs.isEmpty

/-- First-match association lookup (JSON-decoded dicts have unique keys;
see the doc comment on `parseFields` for the duplicate-key convention). -/
def assocFind (fs : List (Str × JValue)) (k : Str) : Option JValue :=
  match fs with
  | [] => none
  | (k2, v) :: t => if k2 = k then some v else assocFind t k

/-- `d.get(k, dflt)`: returns `none` (models `AttributeError`) when `d` is
not a dict, otherwise the value at `k` or the default. -/
def pyGet (d : JValue) (k : Str) (dflt : JValue) : Option JValue :=
  match d with
  | .obj fs => some ((assocFind fs k).getD dflt)
  | _ => none

/-- `d[k]`: `none` models `KeyError` / `TypeError` on a non-dict. -/
def pyIndex (d : JValue) (k : Str) : Option JValue :=
  match d with
  | .obj fs => assocFind fs k
  | _ => none

/-- Python whitespace characters (the ASCII ones `str.strip` removes). -/
def isPyWs (c : Char) : Bool :=
  c = ' ' || c = '\t' || c = '\n' || c = '\r' || c = '\x0b' || c = '\x0c'

/-- `str.lstrip()` (ASCII whitespace). -/
def lstripCh (s : Str) : Str := s.dropWhile isPyWs

/-- `str.rstrip()` (ASCII whitespace). -/
def rstripCh (s : Str) : Str := (s.reverse.dropWhile isPyWs).reverse

/-- `str.strip()` (ASCII whitespace). -/
def stripCh (s : Str) : Str := lstripCh (rstripCh s)

/-- ASCII `str.lower()` on one character. -/
def lowerCh (c : Char) : Char :=
  if 'A' ≤ c ∧ c ≤ 'Z' then Char.ofNat (c.toNat + 32) else c

/-- ASCII `str.lower()`. -/
def pyLower (s : Str) : Str := s.map lowerCh

/-- Decimal digit character for `d < 10`. -/
def digitChar (d : Nat) : Char := Char.ofNat (48 + d)

/-- Decimal digits of a natural number, with explicit fuel so the
definition is structurally recursive; `natChars` supplies enough fuel. -/
def natCharsAux : Nat → Nat → Str
  | 0, _ => []
  | f + 1, n => if n < 10 then [digitChar n] else natCharsAux f (n / 10) ++ [digitChar (n % 10)]

/-- Decimal digits of a natural number. -/
def natChars (n : Nat) : Str := natCharsAux (n + 1) n

/-- `str(n)` for a Python int. -/
def intChars (n : Int) : Str :=
  if n < 0 then '-' :: natChars n.natAbs else natChars n.toNat

/-- Parse an optionally signed all-digit string as `int(s)` does after
stripping; `none` models `ValueError`. -/
def intOfDigits (s : Str) : Option Int :=
  match s with
  | '-' :: t => if t ≠ [] ∧ t.all Char.isDigit then some (-(Int.ofNat (digitsVal t))) else none
  | '+' :: t => if t ≠ [] ∧ t.all Char.isDigit then some (Int.ofNat (digitsVal t)) else none
  | t => if t ≠ [] ∧ t.all Char.isDigit then some (Int.ofNat (digitsVal t)) else none
where
  /-- Value of a digit string, most significant first. -/
  digitsVal (t : Str) : Nat := t.foldl (fun a c => a * 10 + (c.toNat - 48)) 0

/-- `int(x)` on a JSON-decoded value: ints pass through, bools coerce,
numeric strings parse, everything else raises (`none`). -/
def pyInt : JValue → Option Int
  | .num n => some n
  | .bool b => some (if b then 1 else 0)
  | .str s => intOfDigits (stripCh s)
  | _ => none

/-- `list(x)`: lists copy, strings split into 1-char strings, dicts list
their keys; other values raise (`none`). -/
def pyList : JValue → Option (List JValue)
  | .arr xs => some xs
  | .str s => some (s.map (fun c => .str [c]))
  | .obj fs => some (fs.map (fun kv => .str kv.1))
  | _ => none

mutual
/-- `str(x)` of a JSON-decoded value: `None`/`True`/`False`, decimal ints,
strings verbatim, containers via `repr` of their elements. -/
def pyStrV : JValue → Str
  | .null => 'N' :: 'o' :: 'n' :: 'e' :: []
  | .bool true => 'T' :: 'r' :: 'u' :: 'e' :: []
  | .bool false => 'F' :: 'a' :: 'l' :: 's' :: 'e' :: []
  | .num n => intChars n
  | .str s => s
  | .arr xs => '[' :: pyReprList xs ++ [']']
  | .obj fs => '\x7b' :: pyReprFields fs ++ ['\x7d']

/-- `repr(x)`; a string's repr is modelled as single-quote wrapping
(escape processing inside the repr is not modelled — no claim depends on
it). -/
def pyReprV : JValue → Str
  | .str s => '\x27' :: s ++ ['\x27']
  | v => pyStrSame v

/-- The non-string cases of `str`, shared by `repr`. -/
def pyStrSame : JValue → Str
  | .null => 'N' :: 'o' :: 'n' :: 'e' :: []
  | .bool true => 'T' :: 'r' :: 'u' :: 'e' :: []
  | .bool false => 'F' :: 'a' :: 'l' :: 's' :: 'e' :: []
  | .num n => intChars n
  | .str s => s
  | .arr xs => '[' :: pyReprList xs ++ [']']
  | .obj fs => '\x7b' :: pyReprFields fs ++ ['\x7d']

/-- Comma-joined `repr`s of list elements. -/
def pyReprList : List JValue → Str
  | [] => []
  | [x] => pyReprV x
  | x :: xs => pyReprV x ++ ',' :: ' ' :: pyReprList xs

/-- Comma-joined `repr(k): repr(v)` pairs of dict members. -/
def pyReprFields : List (Str × JValue) → Str
  | [] => []
  | [(k, v)] => pyReprV (.str k) ++ ':' :: ' ' :: pyReprV v
  | (k, v) :: fs => pyReprV (.str k) ++ ':' :: ' ' :: pyReprV v ++ ',' :: ' ' :: pyReprFields fs
end

/-! Field-name constants of the StructuredResult schema. -/

def kAssistantMessage : Str := "assistant_message".toList
def kSong : Str := "song".toList
def kTitle : Str := "title".toList
def kVoice : Str := "voice".toList
def kGenre : Str := "genre".toList
def kBpm : Str := "bpm".toList
def kMoodTags : Str := "mood_tags".toList
def kSoundDescription : Str := "sound_description".toList
def kLyrics : Str := "lyrics".toList
def kStructure : Str := "structure".toList
def kText : Str := "text".toList
def kProductionNotes : Str := "production_notes".toList
def kArrangement : Str := "arrangement".toList
def kMixNotes : Str := "mix_notes".toList
def kNeedClarification : Str := "need_clarification".toList
def kClarifyingQuestion : Str := "clarifying_question".toList

/-- The deny-list `BANNED` of `secret_helper.py`. -/
def BANNED : List Str :=
  ["sun sets", "broken heart", "tears fall", "ghosts of memories",
   "empty inside", "without you", "pain remains", "my world is cold"].map String.toList

/-- The placeholder set `_PLACEHOLDERS` of `secret_helper.py`. -/
def PLACEHOLDERS : List Str :=
  ["string", "short description of song", "song title", "full lyrics here",
   "describe the sound/beat", "arrangement notes", "mix notes"].map String.toList

/-- The genre → default BPM table `BPM_DEFAULTS` of `secret_helper.py`. -/
def bpmTable : List (String × Int) :=
  [("boom-bap", 90), ("trap", 145), ("drill", 145), ("lo-fi", 80),
   ("reggaeton", 92), ("salsa", 180), ("bachata", 126), ("merengue", 158),
   ("cumbia", 100), ("latin pop", 110), ("pop", 120), ("rock", 130),
   ("indie", 120), ("punk", 168), ("metal", 155), ("alternative", 125),
   ("electronic", 128), ("house", 128), ("techno", 138), ("dubstep", 140),
   ("drum & bass", 174), ("synthwave", 110), ("ambient", 70),
   ("r&b", 90), ("soul", 85), ("funk", 110), ("blues", 75),
   ("gospel", 90), ("jazz", 100), ("classical", 80), ("reggae", 76),
   ("dancehall", 90), ("afrobeats", 102), ("bossa nova", 128), ("folk", 90),
   ("country", 100), ("k-pop", 120), ("disco", 120)]

/-- Lookup in an association list of BPM entries. -/
def assocBpm (t : List (Str × Int)) (g : Str) : Option Int :=
  match t with
  | [] => none
  | (k, n) :: r => if k = g then some n else assocBpm r g

/-- `BPM_DEFAULTS.get(genre, 100)`. -/
def bpmDefault (g : Str) : Int :=
  (assocBpm (bpmTable.map (fun p => (p.1.toList, p.2))) g).getD 100

/-- The elements of the default `lyrics.structure` sequence. -/
def defaultStructL : List JValue :=
  ["Verse 1", "Chorus", "Verse 2", "Chorus", "Bridge", "Chorus"].map (fun s => .str s.toList)

/-- The default `lyrics.structure` sequence as a JSON value. -/
def defaultStructureJ : JValue := .arr defaultStructL

/-- Build a StructuredResult dict with the exact key set and order the
source uses everywhere (`_FALLBACK` and the dict literal `_normalize`
returns). -/
def mkSR (am title voice genre : Str) (bpm : Int) (mood : List JValue) (sound : Str)
    (structL : List JValue) (text arrNotes mixNotes : Str) (nc : Bool) (cq : Str) : JValue :=
  .obj [
    (kAssistantMessage, .str am),
    (kSong, .obj [
      (kTitle, .str title),
      (kVoice, .str voice),
      (kGenre, .str genre),
      (kBpm, .num bpm),
      (kMoodTags, .arr mood),
      (kSoundDescription, .str sound)]),
    (kLyrics, .obj [
      (kStructure, .arr structL),
      (kText, .str text)]),
    (kProductionNotes, .obj [
      (kArrangement, .str arrNotes),
      (kMixNotes, .str mixNotes)]),
    (kNeedClarification, .bool nc),
    (kClarifyingQuestion, .str cq)]

/-- The `_FALLBACK` StructuredResult dict of `secret_helper.py`. -/
def FALLBACK : JValue :=
  mkSR [] [] "neutral".toList "pop".toList 100 [] [] defaultStructL [] [] [] false []

/-- The fixed clarifying message of `_parse` strategy 5. -/
def fallbackMsg : Str :=
  "I had trouble formatting my response. Could you rephrase your request?".toList

/-- Strategy 5 of `_parse`: a copy of `_FALLBACK` with `need_clarification`
set to true and the fixed clarifying message (key order is preserved by the
Python dict update, since both keys already exist). -/
def fallbackClarify : JValue :=
  mkSR [] [] "neutral".toList "pop".toList 100 [] [] defaultStructL [] [] [] true fallbackMsg

/-- `_clean` of `_normalize`: stringify, strip, and blank out schema
placeholder echoes. -/
def cleanStr (val : JValue) : Str :=
  let v := stripCh (pyStrV val)
  if pyLower v ∈ PLACEHOLDERS then [] else v

/-- `_normalize(d)` of `secret_helper.py`: fill missing keys with safe
defaults.  `none` models the exceptions the Python code can raise
(attribute access on a non-dict field, `int()` or `list()` on an
ill-typed value). -/
def normalizeV (d : JValue) : Option JValue :=
  match pyGet d kSong (.obj []) with
  | none => none
  | some song =>
  match pyGet d kLyrics (.obj []) with
  | none => none
  | some lyr =>
  match pyGet d kProductionNotes (.obj []) with
  | none => none
  | some prod =>
  match pyGet song kGenre (.str "pop".toList) with
  | none => none
  | some genreV =>
  match pyGet d kAssistantMessage (.str []) with
  | none => none
  | some am =>
  match pyGet song kTitle (.str []) with
  | none => none
  | some titleV =>
  match pyGet song kVoice (.str "neutral".toList) with
  | none => none
  | some voiceV =>
  match pyGet song kBpm .null with
  | none => none
  | some bpmV =>
  match pyInt (if truthy bpmV then bpmV else .num (bpmDefault (pyStrV genreV))) with
  | none => none
  | some bpm =>
  match pyGet song kMoodTags (.arr []) with
  | none => none
  | some moodV =>
  match pyList moodV with
  | none => none
  | some mood =>
  match pyGet song kSoundDescription (.str []) with
  | none => none
  | some soundV =>
  match pyGet lyr kStructure defaultStructureJ with
  | none => none
  | some structV =>
  match pyList structV with
  | none => none
  | some structL =>
  match pyGet lyr kText (.str []) with
  | none => none
  | some textV =>
  match pyGet prod kArrangement (.str []) with
  | none => none
  | some arrV =>
  match pyGet prod kMixNotes (.str []) with
  | none => none
  | some mixV =>
  match pyGet d kNeedClarification (.bool false) with
  | none => none
  | some ncV =>
  match pyGet d kClarifyingQuestion (.str []) with
  | none => none
  | some cqV =>
  some (mkSR (cleanStr am) (cleanStr titleV) (pyStrV voiceV) (pyStrV genreV) bpm mood
    (cleanStr soundV) structL (cleanStr textV) (cleanStr arrV) (cleanStr mixV)
    (truthy ncV) (pyStrV cqV))

/-! The `_close_truncated_json` scanner. -/

/-- The loop state of `_close_truncated_json`: the escape lookback flag,
whether a string literal is open, and the stack of open brackets (head =
most recently opened, matching Python's `reversed(stack)` close order). -/
structure ScanSt where
  esc : Bool
  inStr : Bool
  stack : List Char
deriving Repr

/-- One step of the `_close_truncated_json` character loop. -/
def scanChar (st : ScanSt) (c : Char) : ScanSt :=
  if st.esc then { st with esc := false }
  else if c = '\\' && st.inStr then { st with esc := true }
  else if c = '"' then { st with inStr := !st.inStr }
  else if !st.inStr && (c = '\x7b' || c = '[') then { st with stack := c :: st.stack }
  else if !st.inStr && (c = '\x7d' || c = ']') then { st with stack := st.stack.tail }
  else st

/-- The closing token for an opener. -/
def closerFor (c : Char) : Char := if c = '\x7b' then '\x7d' else ']'

/-- `_close_truncated_json(raw)`: rstrip, scan, then append a closing
quote if a string is open and closers for the still-open brackets in LIFO
order. -/
def closeTruncatedJson (raw : Str) : Str :=
  let s := rstripCh raw
  if s.isEmpty then s
  else
    let st := s.foldl scanChar ⟨false, false, []⟩
    s ++ (if st.inStr then ['"'] else []) ++ st.stack.map closerFor

/-! A model of `json.dumps` with default separators.  String escaping is
modelled for the escapes the schema content uses (`\"`, `\\`, `\n`, `\t`,
`\r`); other characters are emitted verbatim. -/

/-- Escape one character as `json.dumps` renders it inside a string. -/
def escCh (c : Char) : Str :=
  if c = '"' then ['\\', '"']
  else if c = '\\' then ['\\', '\\']
  else if c = '\n' then ['\\', 'n']
  else if c = '\t' then ['\\', 't']
  else if c = '\r' then ['\\', 'r']
  else [c]

/-- Escape a string body. -/
def escChars (s : Str) : Str := s.flatMap escCh

mutual
/-- Serialize a value as `json.dumps` does (separators `", "` and `": "`). -/
def dumpV : JValue → Str
  | .null => 'n' :: 'u' :: 'l' :: 'l' :: []
  | .bool true => 't' :: 'r' :: 'u' :: 'e' :: []
  | .bool false => 'f' :: 'a' :: 'l' :: 's' :: 'e' :: []
  | .num n => intChars n
  | .str s => '"' :: escChars s ++ ['"']
  | .arr [] => '[' :: ']' :: []
  | .arr (x :: xs) => '[' :: (dumpV x ++ dumpElems xs) ++ [']']
  | .obj [] => '\x7b' :: '\x7d' :: []
  | .obj (f :: fs) => '\x7b' :: (dumpField f ++ dumpFields fs) ++ ['\x7d']

/-- Remaining array elements, each preceded by `", "`. -/
def dumpElems : List JValue → Str
  | [] => []
  | x :: xs => ',' :: ' ' :: (dumpV x ++ dumpElems xs)

/-- One object member: `"key": value`. -/
def dumpField : Str × JValue → Str
  | (k, v) => '"' :: escChars k ++ '"' :: ':' :: ' ' :: dumpV v

/-- Remaining object members, each preceded by `", "`. -/
def dumpFields : List (Str × JValue) → Str
  | [] => []
  | f :: fs => ',' :: ' ' :: (dumpField f ++ dumpFields fs)
end

/-! A model of `json.loads`: a recursive-descent parser.  Deviations from
CPython's parser, none load-bearing for the claims: numbers are integers
only (a fraction or exponent makes the parse fail instead of producing a
float), leading zeros are accepted, `\u` escapes and the `NaN/Infinity`
extensions are not modelled, and an object keeps its literal member list
(CPython's dict keeps the first position and last value of a duplicated
key).  Recursion is structural over an explicit fuel argument;
`jsonParse` supplies fuel that `parseVal_dump` below shows is always
sufficient. -/

/-- JSON insignificant whitespace. -/
def isJsonWs (c : Char) : Bool := c = ' ' || c = '\t' || c = '\n' || c = '\r'

/-- Skip insignificant whitespace. -/
def skipWs (s : Str) : Str := s.dropWhile isJsonWs

/-- Decode one string-escape character; `none` models a rejected escape. -/
def unescCh (c : Char) : Option Char :=
  if c = '"' then some '"'
  else if c = '\\' then some '\\'
  else if c = '/' then some '/'
  else if c = 'n' then some '\n'
  else if c = 't' then some '\t'
  else if c = 'r' then some '\r'
  else if c = 'b' then some '\x08'
  else if c = 'f' then some '\x0c'
  else none

/-- Parse a string body after the opening quote, up to and including the
closing quote. -/
def parseStrA : Str → Option (Str × Str)
  | [] => none
  | '"' :: rest => some ([], rest)
  | '\\' :: e :: rest =>
    match unescCh e with
    | none => none
    | some c => (parseStrA rest).map (fun p => (c :: p.1, p.2))
  | ['\\'] => none
  | c :: rest => (parseStrA rest).map (fun p => (c :: p.1, p.2))

/-- Accumulate decimal digits. -/
def parseDigsAux (acc : Nat) : Str → Nat × Str
  | [] => (acc, [])
  | c :: r => if c.isDigit then parseDigsAux (acc * 10 + (c.toNat - 48)) r else (acc, c :: r)

/-- Parse a nonempty run of decimal digits. -/
def parseDigs : Str → Option (Nat × Str)
  | [] => none
  | c :: r => if c.isDigit then some (parseDigsAux (c.toNat - 48) r) else none

mutual
/-- Parse one JSON value (after skipping leading whitespace). -/
def parseVal : Nat → Str → Option (JValue × Str)
  | 0, _ => none
  | f + 1, cs =>
    match skipWs cs with
    | 'n' :: 'u' :: 'l' :: 'l' :: r => some (.null, r)
    | 't' :: 'r' :: 'u' :: 'e' :: r => some (.bool true, r)
    | 'f' :: 'a' :: 'l' :: 's' :: 'e' :: r => some (.bool false, r)
    | '"' :: r => (parseStrA r).map (fun p => (.str p.1, p.2))
    | '-' :: r => (parseDigs r).map (fun p => (.num (-(Int.ofNat p.1)), p.2))
    | '[' :: r =>
      (match skipWs r with
       | ']' :: r2 => some (.arr [], r2)
       | r2 => (parseElems f r2).map (fun p => (.arr p.1, p.2)))
    | '\x7b' :: r =>
      (match skipWs r with
       | '\x7d' :: r2 => some (.obj [], r2)
       | r2 => (parseFields f r2).map (fun p => (.obj p.1, p.2)))
    | c :: r =>
      if c.isDigit then (parseDigs (c :: r)).map (fun p => (.num (Int.ofNat p.1), p.2))
      else none
    | [] => none

/-- Parse the elements of a nonempty array, consuming the closing `]`. -/
def parseElems : Nat → Str → Option (List JValue × Str)
  | 0, _ => none
  | f + 1, cs =>
    match parseVal f cs with
    | none => none
    | some (v, r) =>
      match skipWs r with
      | ',' :: r2 =>
        (parseElems f r2).map (fun p => (v :: p.1, p.2))
      | ']' :: r2 => some ([v], r2)
      | _ => none

/-- Parse the members of a nonempty object, consuming the closing brace. -/
def parseFields : Nat → Str → Option (List (Str × JValue) × Str)
  | 0, _ => none
  | f + 1, cs =>
    match skipWs cs with
    | '"' :: r =>
      match parseStrA r with
      | none => none
      | some (k, r1) =>
        match skipWs r1 with
        | ':' :: r2 =>
          match parseVal f r2 with
          | none => none
          | some (v, r3) =>
            match skipWs r3 with
            | ',' :: r4 => (parseFields f r4).map (fun p => ((k, v) :: p.1, p.2))
            | '\x7d' :: r4 => some ([(k, v)], r4)
            | _ => none
        | _ => none
    | _ => none
end

/-- `json.loads(s)`: parse one value and require only whitespace after it. -/
def jsonParse (cs : Str) : Option JValue :=
  match parseVal (2 * cs.length + 2) cs with
  | some (v, rest) => if (skipWs rest).isEmpty then some v else none
  | none => none

/-! The `_parse` repair cascade. -/

/-- `re.search(r"\x7b[\s\S]*", raw)`: the substring from the first opening
brace to the end, or `none` when no brace occurs. -/
def braceSuffix (raw : Str) : Option Str :=
  match raw.dropWhile (fun c => c ≠ '\x7b') with
  | [] => none
  | s => some s

/-- Strategy 1 of `_parse`: `_normalize(json.loads(raw))`; `none` when
either step raises. -/
def strat1 (raw : Str) : Option JValue :=
  (jsonParse raw).bind normalizeV

/-- Strategy 2 of `_parse`: close the truncated text, then parse and
normalize. -/
def strat2 (raw : Str) : Option JValue :=
  (jsonParse (closeTruncatedJson raw)).bind normalizeV

/-- Strategy 3 of `_parse`: extract the first brace-to-end block and try
it as-is, then closed. -/
def strat3 (raw : Str) : Option JValue :=
  match braceSuffix raw with
  | none => none
  | some g => (strat1 g).orElse (fun _ => strat2 g)

/-- The deterministic strategies 1–3 in order, first success wins. -/
def detParse (raw : Str) : Option JValue :=
  ((strat1 raw).orElse (fun _ => strat2 raw)).orElse (fun _ => strat3 raw)

/-- `_parse(raw)`.  The repair backend `_call_ollama` is modelled by its
observable behaviour on the one repair prompt `_parse` can issue:
`backend = some s` means the call returned the string `s`, `none` means it
raised.  Strategy 4 parses the repair response exactly as strategy 1 does;
any failure there falls through to the safe fallback. -/
def parseCascade (raw : Str) (backend : Option Str) : JValue :=
  match detParse raw with
  | some r => r
  | none =>
    match backend with
    | some resp =>
      match strat1 resp with
      | some r => r
      | none => fallbackClarify
    | none => fallbackClarify

/-- How many repair-backend calls one `_parse` invocation performs: the
single strategy-4 call is reached exactly when strategies 1–3 all fail. -/
def parseBackendCalls (raw : Str) : Nat :=
  if (detParse raw).isSome then 0 else 1

/-! The `_lint` cliché pass. -/

/-- Is `pat` a contiguous substring of `hay` (Python `in`)? -/
def infixOf (pat : Str) : Str → Bool
  | [] => pat.isEmpty
  | c :: t => pat.isPrefixOf (c :: t) || infixOf pat t

/-- `[p for p in BANNED if p in parsed["lyrics"]["text"].lower()]`;
`none` models the exceptions of the two lookups or of `.lower()` on a
non-string. -/
def lintFound (parsed : JValue) : Option (List Str) :=
  match pyIndex parsed kLyrics with
  | none => none
  | some lyr =>
    match pyIndex lyr kText with
    | none => none
    | some (.str t) => some (BANNED.filter (fun p => infixOf p (pyLower t)))
    | some _ => none

/-- `_lint(parsed)`.  `rewriteResp` is the observable behaviour of the
`_call_ollama(fix)` rewrite call (`none` = it raised, which `_lint` does
not catch), and `repairResp` is the behaviour of the repair call that the
inner `_parse` may itself issue.  Returns `none` when `_lint` raises. -/
def lintRun (parsed : JValue) (rewriteResp : Option Str) (repairResp : Option Str) :
    Option JValue :=
  match lintFound parsed with
  | none => none
  | some found =>
    if found.isEmpty then some parsed
    else
      match rewriteResp with
      | none => none
      | some resp =>
        let fixed := parseCascade resp repairResp
        match pyIndex fixed kLyrics with
        | none => none
        | some flyr =>
          match pyIndex flyr kText with
          | none => none
          | some ftext => some (if truthy ftext then fixed else parsed)

/-- How many rewrite-backend calls one `_lint` invocation performs. -/
def lintBackendCalls (parsed : JValue) : Nat :=
  match lintFound parsed with
  | some found => if found.isEmpty then 0 else 1
  | none => 0

/-! The StructuredResult shape. -/

/-- Does an optional lookup hold a string? -/
def isStrO : Option JValue → Bool
  | some (.str _) => true
  | _ => false

/-- Does an optional lookup hold an integer? -/
def isNumO : Option JValue → Bool
  | some (.num _) => true
  | _ => false

/-- Does an optional lookup hold a list? -/
def isArrO : Option JValue → Bool
  | some (.arr _) => true
  | _ => false

/-- Does an optional lookup hold a bool? -/
def isBoolO : Option JValue → Bool
  | some (.bool _) => true
  | _ => false

/-- A StructuredResult-shaped dict: every schema field present with its
declared type (`bpm` an integer), extra keys tolerated. -/
def validSR (d : JValue) : Bool :=
  isStrO (pyIndex d kAssistantMessage) &&
  (match pyIndex d kSong with
   | some song =>
     isStrO (pyIndex song kTitle) && isStrO (pyIndex song kVoice) &&
     isStrO (pyIndex song kGenre) && isNumO (pyIndex song kBpm) &&
     isArrO (pyIndex song kMoodTags) && isStrO (pyIndex song kSoundDescription)
   | _ => false) &&
  (match pyIndex d kLyrics with
   | some lyr => isArrO (pyIndex lyr kStructure) && isStrO (pyIndex lyr kText)
   | _ => false) &&
  (match pyIndex d kProductionNotes with
   | some prod => isStrO (pyIndex prod kArrangement) && isStrO (pyIndex prod kMixNotes)
   | _ => false) &&
  isBoolO (pyIndex d kNeedClarification) && isStrO (pyIndex d kClarifyingQuestion)

/-- The data-model invariant of the spec: when `need_clarification` is
true, `clarifying_question` is a non-empty string. -/
def invariantHolds (r : JValue) : Bool :=
  match pyIndex r kNeedClarification with
  | some (.bool true) =>
    (match pyIndex r kClarifyingQuestion with
     | some (.str s) => !s.isEmpty
     | _ => false)
  | _ => true

/-! The streaming orchestrator of `src/app.py`.

`on_submit` and `_helper_core` are Python generators.  A run is modelled
as a `Trace`: the list of yielded snapshots (only the fields the claims
speak about — whether the snapshot is an error card and which audio path
it carries), the list of stage work functions that were dispatched, and
whether the generator returned normally or propagated an exception.  Stage
outcomes (`_run_bg` result/exc boxes, and the direct `mixer` calls) are
parameters; the spinner loops yield a timing-dependent number of progress
snapshots, modelled by explicit iteration-count parameters.  The
`prompt_parser.parse` call and the transcript text are outside this
model. -/

/-- The stage work functions of a run. -/
inductive Stage where
  | lyricsStage
  | musicStage
  | saveStage
  | vocalsStage
  | mixStage
  | helperStage
deriving DecidableEq, Repr

/-- One yielded snapshot, reduced to the claim-relevant fields. -/
structure Snap where
  errorCard : Bool
  audio : Option Str
deriving DecidableEq, Repr

/-- An ordinary progress snapshot: not an error card, no audio path. -/
def progSnap : Snap := ⟨false, none⟩

/-- A whole generator run. -/
structure Trace (ε : Type) where
  yields : List Snap
  ran : List Stage
  outcome : Except ε Unit

/-- `on_submit(message, …)`: the full song pipeline.  `lyricsOut`,
`musicOut`, `saveOut`, `vocalOut`, `mixOut` are the outcomes of the five
stage work functions; `spin1`, `spinM`, `spinV` the spinner iteration
counts; `olReady` whether the Ollama warning card is skipped. -/
def onSubmitTrace (message customLyrics : Str) (musicOnly olReady : Bool)
    (spin1 spinM spinV : Nat)
    (lyricsOut : Except ε Str) (musicOut : Except ε Unit) (saveOut : Except ε Str)
    (vocalOut : Except ε Unit) (mixOut : Except ε Str) : Trace ε :=
  if (stripCh message).isEmpty then ⟨[progSnap], [], .ok ()⟩
  else
    let pre : List Snap :=
      [progSnap] ++ (if olReady then [] else [progSnap]) ++ [progSnap]
    let lyStep : List Snap × List Stage × Str :=
      if musicOnly then ([], [], [])
      else if !(stripCh customLyrics).isEmpty then ([progSnap], [], stripCh customLyrics)
      else (List.replicate spin1 progSnap, [Stage.lyricsStage],
            match lyricsOut with
            | .ok s => s
            | .error _ => [])
    let pre2 := pre ++ lyStep.1 ++ [progSnap]
    let ranM := lyStep.2.1 ++ [Stage.musicStage]
    let mYields := List.replicate spinM progSnap
    match musicOut with
    | .error e => ⟨pre2 ++ mYields, ranM, .error e⟩
    | .ok _ =>
      if musicOnly then
        match saveOut with
        | .error e => ⟨pre2 ++ mYields ++ [progSnap], ranM ++ [Stage.saveStage], .error e⟩
        | .ok path =>
          ⟨pre2 ++ mYields ++ [progSnap, ⟨false, some path⟩], ranM ++ [Stage.saveStage], .ok ()⟩
      else
        let ranV := ranM ++ [Stage.vocalsStage]
        let vYields := List.replicate spinV progSnap
        match vocalOut with
        | .error e => ⟨pre2 ++ mYields ++ vYields, ranV, .error e⟩
        | .ok _ =>
          match mixOut with
          | .error e =>
            ⟨pre2 ++ mYields ++ vYields ++ [progSnap], ranV ++ [Stage.mixStage], .error e⟩
          | .ok path =>
            ⟨pre2 ++ mYields ++ vYields ++ [progSnap, ⟨false, some path⟩],
             ranV ++ [Stage.mixStage], .ok ()⟩

/-- `_helper_core(message, …)`: the assistant pipeline.  On a raised
helper stage it replaces the spinner with an error card, yields it and
returns normally. -/
def helperCoreTrace (helperOut : Except ε Unit) (spin : Nat) : Trace ε :=
  let pre : List Snap := [progSnap, progSnap] ++ List.replicate spin progSnap
  match helperOut with
  | .error _ => ⟨pre ++ [⟨true, none⟩], [Stage.helperStage], .ok ()⟩
  | .ok _ => ⟨pre ++ [progSnap], [Stage.helperStage], .ok ()⟩

/-! Auxiliary predicates and measures used by the theorems. -/

/-- Is the value a dict? -/
def isObjB : JValue → Bool
  | .obj _ => true
  | _ => false

/-- Does `int(x)` succeed on this value? -/
def intableB : JValue → Bool
  | .num _ => true
  | .bool _ => true
  | .str s => (intOfDigits (stripCh s)).isSome
  | _ => false

/-- Does `list(x)` succeed on this value (is it iterable)? -/
def iterableB : JValue → Bool
  | .arr _ => true
  | .str _ => true
  | .obj _ => true
  | _ => false

/-- The candidates on which `_normalize` runs to completion: a dict whose
`song`, `lyrics` and `production_notes` fields (when present) are dicts,
whose effective `bpm` argument is acceptable to `int()`, and whose
`mood_tags` and `lyrics.structure` (when present) are iterable. -/
def wellTypedCand (d : JValue) : Bool :=
  isObjB d &&
  (let song := (pyGet d kSong (.obj [])).getD .null
   let lyr := (pyGet d kLyrics (.obj [])).getD .null
   let prod := (pyGet d kProductionNotes (.obj [])).getD .null
   isObjB song && isObjB lyr && isObjB prod &&
   (let g := pyStrV ((pyGet song kGenre (.str "pop".toList)).getD .null)
    let b := (pyGet song kBpm .null).getD .null
    intableB (if truthy b then b else .num (bpmDefault g))) &&
   iterableB ((pyGet song kMoodTags (.arr [])).getD .null) &&
   iterableB ((pyGet lyr kStructure defaultStructureJ).getD .null))

/-- Neither end of the string is whitespace. -/
def noWsEnds (s : Str) : Bool :=
  (match s.head? with
   | some c => !isPyWs c
   | none => true) &&
  (match s.getLast? with
   | some c => !isPyWs c
   | none => true)

mutual
/-- Fuel measure for `parseVal`: enough fuel to parse `dumpV v`. -/
def szV : JValue → Nat
  | .arr xs => 1 + szL xs
  | .obj fs => 1 + szF fs
  | _ => 1

/-- Fuel measure for `parseElems`. -/
def szL : List JValue → Nat
  | [] => 1
  | x :: xs => 1 + szV x + szL xs

/-- Fuel measure for `parseFields`. -/
def szF : List (Str × JValue) → Nat
  | [] => 1
  | (_, v) :: fs => 1 + szV v + szF fs
end

/-- The scan state in which `_close_truncated_json` would append nothing:
no open string, no open bracket. -/
def scanBalanced (s : Str) : Bool :=
  let st := s.foldl scanChar ⟨false, false, []⟩
  !st.inStr && st.stack.isEmpty

/-! ### Basic string lemmas -/

theorem dropWhile_head_false (p : Char → Bool) (l : Str) (c : Char)
    (h : (l.dropWhile p).head? = some c) : p c = false := by
  induction l with
  | nil => simp [List.dropWhile] at h
  | cons a t ih =>
    by_cases hp : p a
    · simp [List.dropWhile, hp] at h
      exact ih h
    · simp [List.dropWhile, hp] at h
      subst h
      exact Bool.of_not_eq_true hp

theorem dropWhile_eq_self_of_head (p : Char → Bool) (l : Str)
    (h : ∀ c, l.head? = some c → p c = false) : l.dropWhile p = l := by
  cases l with
  | nil => rfl
  | cons a t => simp [List.dropWhile, h a rfl]

theorem getLast?_dropWhile (p : Char → Bool) (l : Str) (c : Char)
    (h : (l.dropWhile p).getLast? = some c) : l.getLast? = some c := by
  induction l with
  | nil => simp [List.dropWhile] at h
  | cons a t ih =>
    by_cases hp : p a
    · simp only [List.dropWhile, hp] at h
      have ht := ih h
      cases t with
      | nil => simp at ht
      | cons b u =>
        rw [List.getLast?_cons_cons]
        exact ht
    · simp only [List.dropWhile, hp] at h
      simpa using h

theorem rstripCh_eq_self_of_last (s : Str)
    (h : ∀ c, s.getLast? = some c → isPyWs c = false) : rstripCh s = s := by
  unfold rstripCh
  rw [dropWhile_eq_self_of_head, List.reverse_reverse]
  intro c hc
  exact h c (by rwa [List.head?_reverse] at hc)

theorem lstripCh_eq_self_of_head (s : Str)
    (h : ∀ c, s.head? = some c → isPyWs c = false) : lstripCh s = s :=
  dropWhile_eq_self_of_head _ _ h

theorem stripCh_eq_self_of_noWsEnds (s : Str) (h : noWsEnds s = true) : stripCh s = s := by
  unfold noWsEnds at h
  rw [Bool.and_eq_true] at h
  unfold stripCh
  rw [rstripCh_eq_self_of_last, lstripCh_eq_self_of_head]
  · intro c hc
    have := h.1
    rw [hc] at this
    simpa using this
  · intro c hc
    have := h.2
    rw [hc] at this
    simpa using this

theorem noWsEnds_stripCh (s : Str) : noWsEnds (stripCh s) = true := by
  unfold noWsEnds
  rw [Bool.and_eq_true]
  constructor
  · cases hh : (stripCh s).head? with
    | none => rfl
    | some c =>
      have : isPyWs c = false := dropWhile_head_false _ _ _ hh
      simp [this]
  · cases hh : (stripCh s).getLast? with
    | none => rfl
    | some c =>
      have h2 : (rstripCh s).getLast? = some c := getLast?_dropWhile _ _ _ hh
      unfold rstripCh at h2
      rw [List.getLast?_reverse] at h2
      have : isPyWs c = false := dropWhile_head_false _ _ _ h2
      simp [this]

theorem stripCh_idem (s : Str) : stripCh (stripCh s) = stripCh s :=
  stripCh_eq_self_of_noWsEnds _ (noWsEnds_stripCh s)

theorem cleanStr_str_idem (v : JValue) : cleanStr (.str (cleanStr v)) = cleanStr v := by
  unfold cleanStr
  by_cases hm : pyLower (stripCh (pyStrV v)) ∈ PLACEHOLDERS
  · simp only [hm, if_pos]
    decide
  · simp only [hm, if_neg, not_false_iff]
    show (if pyLower (stripCh (pyStrV (.str (stripCh (pyStrV v))))) ∈ PLACEHOLDERS
          then ([] : Str) else stripCh (pyStrV (.str (stripCh (pyStrV v))))) = stripCh (pyStrV v)
    have hs : pyStrV (JValue.str (stripCh (pyStrV v))) = stripCh (pyStrV v) := rfl
    rw [hs, stripCh_idem]
    simp [hm]

/-! ### Shape lemmas for StructuredResult dicts -/

theorem validSR_mkSR (am title voice genre : Str) (bpm : Int) (mood : List JValue)
    (sound : Str) (structL : List JValue) (text arrNotes mixNotes : Str) (nc : Bool)
    (cq : Str) :
    validSR (mkSR am title voice genre bpm mood sound structL text arrNotes mixNotes nc cq)
      = true := rfl

theorem invariantHolds_mkSR (am title voice genre : Str) (bpm : Int) (mood : List JValue)
    (sound : Str) (structL : List JValue) (text arrNotes mixNotes : Str) (nc : Bool)
    (cq : Str) :
    invariantHolds (mkSR am title voice genre bpm mood sound structL text arrNotes mixNotes
      nc cq) = (!nc || !cq.isEmpty) := by
  cases nc <;> rfl

theorem normalizeV_shape (d r : JValue) (h : normalizeV d = some r) :
    ∃ am title voice genre bpm mood sound structL text arrNotes mixNotes nc cq,
      r = mkSR am title voice genre bpm mood sound structL text arrNotes mixNotes nc cq := by
  unfold normalizeV at h
  iterate 20 (all_goals try split at h)
  all_goals first
    | exact Option.noConfusion h
    | exact ⟨_, _, _, _, _, _, _, _, _, _, _, _, _, (Option.some.inj h).symm⟩

theorem normalizeV_validSR (d r : JValue) (h : normalizeV d = some r) : validSR r = true := by
  obtain ⟨_, _, _, _, _, _, _, _, _, _, _, _, _, hr⟩ := normalizeV_shape d r h
  rw [hr]
  exact validSR_mkSR _ _ _ _ _ _ _ _ _ _ _ _ _

theorem bind_normalizeV_validSR (o : Option JValue) (r : JValue)
    (h : o.bind normalizeV = some r) : validSR r = true := by
  cases o with
  | none => exact Option.noConfusion h
  | some d => exact normalizeV_validSR d r h

theorem strat1_validSR (raw : Str) (r : JValue) (h : strat1 raw = some r) :
    validSR r = true := bind_normalizeV_validSR _ _ h

theorem strat2_validSR (raw : Str) (r : JValue) (h : strat2 raw = some r) :
    validSR r = true := bind_normalizeV_validSR _ _ h

theorem strat3_validSR (raw : Str) (r : JValue) (h : strat3 raw = some r) :
    validSR r = true := by
  unfold strat3 at h
  split at h
  · exact Option.noConfusion h
  · rcases (Option.orElse_eq_some' _ _ _).mp h with h1 | ⟨_, h2⟩
    · exact strat1_validSR _ _ h1
    · exact strat2_validSR _ _ h2

theorem detParse_validSR (raw : Str) (r : JValue) (h : detParse raw = some r) :
    validSR r = true := by
  unfold detParse at h
  rcases (Option.orElse_eq_some' _ _ _).mp h with h12 | ⟨_, h3⟩
  · rcases (Option.orElse_eq_some' _ _ _).mp h12 with h1 | ⟨_, h2⟩
    · exact strat1_validSR _ _ h1
    · exact strat2_validSR _ _ h2
  · exact strat3_validSR _ _ h3

theorem validSR_fallbackClarify : validSR fallbackClarify = true := rfl

theorem pyInt_isSome (v : JValue) : (pyInt v).isSome = intableB v := by
  cases v <;> rfl

theorem pyList_isSome (v : JValue) : (pyList v).isSome = iterableB v := by
  cases v <;> rfl

/-- C2 (amended): `_normalize` runs to completion on every well-typed
candidate. -/
theorem normalize_total_on_wellTyped :
    ∀ d, wellTypedCand d = true → (normalizeV d).isSome = true := by
  intro d hw
  cases d with
  | null => exact Bool.noConfusion hw
  | bool b => exact Bool.noConfusion hw
  | num n => exact Bool.noConfusion hw
  | str s => exact Bool.noConfusion hw
  | arr xs => exact Bool.noConfusion hw
  | obj fs =>
    simp only [wellTypedCand, pyGet, Option.getD_some, Bool.and_eq_true] at hw
    obtain ⟨-, ⟨⟨⟨⟨hso, hly⟩, hpr⟩, hbpm⟩, hmood⟩, hstruct⟩ := hw
    cases hs : (assocFind fs kSong).getD (JValue.obj []) with
    | null => rw [hs] at hso; exact Bool.noConfusion hso
    | bool b => rw [hs] at hso; exact Bool.noConfusion hso
    | num n => rw [hs] at hso; exact Bool.noConfusion hso
    | str s => rw [hs] at hso; exact Bool.noConfusion hso
    | arr xs => rw [hs] at hso; exact Bool.noConfusion hso
    | obj sfs =>
    cases hl : (assocFind fs kLyrics).getD (JValue.obj []) with
    | null => rw [hl] at hly; exact Bool.noConfusion hly
    | bool b => rw [hl] at hly; exact Bool.noConfusion hly
    | num n => rw [hl] at hly; exact Bool.noConfusion hly
    | str s => rw [hl] at hly; exact Bool.noConfusion hly
    | arr xs => rw [hl] at hly; exact Bool.noConfusion hly
    | obj lfs =>
    cases hp : (assocFind fs kProductionNotes).getD (JValue.obj []) with
    | null => rw [hp] at hpr; exact Bool.noConfusion hpr
    | bool b => rw [hp] at hpr; exact Bool.noConfusion hpr
    | num n => rw [hp] at hpr; exact Bool.noConfusion hpr
    | str s => rw [hp] at hpr; exact Bool.noConfusion hpr
    | arr xs => rw [hp] at hpr; exact Bool.noConfusion hpr
    | obj pfs =>
    rw [hs] at hbpm hmood
    rw [hl] at hstruct
    simp only [pyGet, Option.getD_some] at hbpm hmood hstruct
    rw [← pyInt_isSome] at hbpm
    rw [← pyList_isSome] at hmood hstruct
    obtain ⟨b, hb⟩ := Option.isSome_iff_exists.mp hbpm
    obtain ⟨mood, hm⟩ := Option.isSome_iff_exists.mp hmood
    obtain ⟨structL, hst⟩ := Option.isSome_iff_exists.mp hstruct
    simp only [normalizeV, pyGet, Option.getD_some, hs, hl, hp, hb, hm, hst]
    rfl

/-- C2 (witness): `_normalize` completes on the well-typed candidate
`_FALLBACK`. -/
theorem normalize_total_witness :
    wellTypedCand FALLBACK = true ∧ (normalizeV FALLBACK).isSome = true :=
  ⟨rfl, normalize_total_on_wellTyped FALLBACK rfl⟩

/-- C2 (counterexample): on the candidate `⦃"song": 5⦄` — a loosely-typed
map — `_normalize` raises (`AttributeError: int has no attribute get`)
instead of returning a StructuredResult. -/
theorem normalize_not_total_cex : normalizeV (.obj [(kSong, .num 5)]) = none := rfl

/-- C5 (counterexample): the claim fails — `_normalize` (and hence
`_parse` on the raw text `⦃"need_clarification": true⦄`) produces a
StructuredResult with `need_clarification = true` and an empty
`clarifying_question`. -/
theorem clarify_invariant_cex :
    invariantHolds (parseCascade ("\x7b\"need_clarification\": true\x7d".toList) none) = false
    ∧ (normalizeV (.obj [(kNeedClarification, .bool true)])).map invariantHolds
        = some false :=
  ⟨rfl, rfl⟩

/-- C5 (amended): the safe fallback of `_parse` satisfies the invariant,
and a `_normalize` output satisfies it provided the candidate's
`clarifying_question` stringifies to a non-empty string whenever its
`need_clarification` field is truthy. -/
theorem clarify_invariant_amended :
    invariantHolds fallbackClarify = true ∧
    ∀ d r, normalizeV d = some r →
      (truthy ((pyGet d kNeedClarification (.bool false)).getD .null) = true →
        pyStrV ((pyGet d kClarifyingQuestion (.str [])).getD .null) ≠ []) →
      invariantHolds r = true := by
  refine ⟨rfl, ?_⟩
  intro d r h hq
  cases d with
  | null => exact Option.noConfusion h
  | bool b => exact Option.noConfusion h
  | num n => exact Option.noConfusion h
  | str s => exact Option.noConfusion h
  | arr xs => exact Option.noConfusion h
  | obj fs =>
    simp only [pyGet, Option.getD_some] at hq
    simp only [normalizeV, pyGet, Option.getD_some] at h
    iterate 16 (all_goals try split at h)
    all_goals try exact Option.noConfusion h
    have hr : r = mkSR _ _ _ _ _ _ _ _ _ _ _
        (truthy ((assocFind fs kNeedClarification).getD (.bool false)))
        (pyStrV ((assocFind fs kClarifyingQuestion).getD (.str []))) :=
      (Option.some.inj h).symm
    rw [hr, invariantHolds_mkSR]
    cases htr : truthy ((assocFind fs kNeedClarification).getD (.bool false)) with
    | false => rfl
    | true =>
      have hne := hq htr
      simp [hne]

/-- C5 (witness): the amended invariant at the concrete candidate `⦃⦄`,
whose normalization leaves `need_clarification` false. -/
theorem clarify_invariant_witness :
    invariantHolds (mkSR [] [] "neutral".toList "pop".toList 120 [] [] defaultStructL
      [] [] [] false []) = true :=
  clarify_invariant_amended.2 (.obj []) _ rfl (fun h => Bool.noConfusion h)

theorem parseCascade_validSR (raw : Str) (backend : Option Str) :
    validSR (parseCascade raw backend) = true := by
  unfold parseCascade
  split
  · rename_i r hd
    exact detParse_validSR _ _ hd
  · split
    · split
      · rename_i r hs
        exact strat1_validSR _ _ hs
      · exact validSR_fallbackClarify
    · exact validSR_fallbackClarify

/-- C1: for every raw string and every behaviour of the repair backend,
`_parse` returns a StructuredResult-shaped dict and never raises; when
every parse strategy fails it returns the safe fallback with
`need_clarification = true` and the fixed clarifying message. -/
theorem parse_cascade_total :
    ∀ raw backend, validSR (parseCascade raw backend) = true ∧
      (detParse raw = none →
        (∀ s, backend = some s → strat1 s = none) →
        parseCascade raw backend = fallbackClarify) := by
  intro raw backend
  constructor
  · exact parseCascade_validSR raw backend
  · intro h1 h2
    unfold parseCascade
    rw [h1]
    cases backend with
    | none => rfl
    | some s =>
      show (match strat1 s with
            | some r => r
            | none => fallbackClarify) = fallbackClarify
      rw [h2 s rfl]

/-- C1 (witness): on the raw text `not json at all` with a raising
backend, `_parse` returns the safe fallback. -/
theorem parse_cascade_total_witness :
    validSR (parseCascade "not json at all".toList none) = true ∧
    parseCascade "not json at all".toList none = fallbackClarify := by
  have h := parse_cascade_total "not json at all".toList none
  exact ⟨h.1, h.2 rfl (fun s hs => Option.noConfusion hs)⟩

theorem detParse_eq_none_iff (raw : Str) :
    detParse raw = none ↔ strat1 raw = none ∧ strat2 raw = none ∧ strat3 raw = none := by
  unfold detParse
  cases h1 : strat1 raw <;> cases h2 : strat2 raw <;> cases h3 : strat3 raw <;>
    simp [Option.orElse, h1, h2, h3]

/-- C8: one `_parse` invocation calls the repair backend at most once,
the call happens exactly when the three deterministic strategies fail,
and the result does not depend on the backend when they succeed. -/
theorem repair_call_at_most_once :
    ∀ raw, parseBackendCalls raw ≤ 1 ∧
      (parseBackendCalls raw = 1 ↔
        strat1 raw = none ∧ strat2 raw = none ∧ strat3 raw = none) ∧
      (∀ b b', (detParse raw).isSome = true → parseCascade raw b = parseCascade raw b') := by
  intro raw
  have hiff := detParse_eq_none_iff raw
  refine ⟨?_, ?_, ?_⟩
  · unfold parseBackendCalls
    split
    · exact Nat.zero_le 1
    · exact Nat.le_refl 1
  · unfold parseBackendCalls
    cases hd : detParse raw with
    | some r =>
      rw [hd] at hiff
      simp only [hd, Option.isSome_some, if_true]
      constructor
      · intro h01
        exact absurd h01 (by decide)
      · intro hc
        exact Option.noConfusion (hiff.mpr hc)
    | none =>
      rw [hd] at hiff
      simp only [hd, Option.isSome_none, if_false]
      constructor
      · exact fun _ => hiff.mp rfl
      · exact fun _ => rfl
  · intro b b' hs
    unfold parseCascade
    obtain ⟨r, hr⟩ := Option.isSome_iff_exists.mp hs
    rw [hr]

/-- C8 (witness): on the raw text `⦃⦄`, which direct-parses, no backend
call happens and the result ignores the backend. -/
theorem repair_call_witness :
    parseBackendCalls "\x7b\x7d".toList = 0 ∧
    parseCascade "\x7b\x7d".toList (some "x".toList) = parseCascade "\x7b\x7d".toList none :=
  ⟨rfl, (repair_call_at_most_once ("\x7b\x7d".toList)).2.2 (some "x".toList) none rfl⟩

theorem validSR_lyricsText (d : JValue) (h : validSR d = true) :
    ∃ lyr t, pyIndex d kLyrics = some lyr ∧ pyIndex lyr kText = some (.str t) := by
  unfold validSR at h
  simp only [Bool.and_eq_true] at h
  obtain ⟨⟨⟨⟨⟨-, -⟩, hL⟩, -⟩, -⟩, -⟩ := h
  split at hL
  · rename_i lyr heq
    rw [Bool.and_eq_true] at hL
    obtain ⟨-, ht⟩ := hL
    cases hx : pyIndex lyr kText with
    | none => rw [hx] at ht; exact Bool.noConfusion ht
    | some v =>
      cases v with
      | str t => exact ⟨lyr, t, heq, hx⟩
      | null => rw [hx] at ht; exact Bool.noConfusion ht
      | bool b => rw [hx] at ht; exact Bool.noConfusion ht
      | num n => rw [hx] at ht; exact Bool.noConfusion ht
      | arr xs => rw [hx] at ht; exact Bool.noConfusion ht
      | obj fs => rw [hx] at ht; exact Bool.noConfusion ht
  · exact Bool.noConfusion hL

/-- C7: when no banned phrase occurs (case-insensitively) in
`lyrics.text`, `_lint` returns its input unchanged and performs no
backend call. -/
theorem lint_noop_when_clean :
    ∀ parsed lyr t,
      pyIndex parsed kLyrics = some lyr →
      pyIndex lyr kText = some (.str t) →
      (∀ p ∈ BANNED, infixOf p (pyLower t) = false) →
      (∀ rwResp repResp, lintRun parsed rwResp repResp = some parsed) ∧
      lintBackendCalls parsed = 0 := by
  intro parsed lyr t hly htx hban
  have hfound : lintFound parsed = some [] := by
    unfold lintFound
    simp only [hly, htx]
    congr 1
    rw [List.filter_eq_nil_iff]
    intro p hp
    simp [hban p hp]
  constructor
  · intro rwResp repResp
    unfold lintRun
    rw [hfound]
    rfl
  · unfold lintBackendCalls
    rw [hfound]
    rfl

/-- C7 (witness): a StructuredResult with lyrics text `hello` passes
`_lint` unchanged with no backend call. -/
theorem lint_noop_witness :
    lintRun (mkSR [] [] [] [] 100 [] [] [] "hello".toList [] [] false []) none none
      = some (mkSR [] [] [] [] 100 [] [] [] "hello".toList [] [] false []) ∧
    lintBackendCalls (mkSR [] [] [] [] 100 [] [] [] "hello".toList [] [] false []) = 0 := by
  have h := lint_noop_when_clean
    (mkSR [] [] [] [] 100 [] [] [] "hello".toList [] [] false [])
    (.obj [(kStructure, .arr []), (kText, .str "hello".toList)])
    "hello".toList rfl rfl (by decide)
  exact ⟨h.1 none none, h.2⟩

/-- C6: if the input's `lyrics.text` is non-empty then, for every
behaviour of the rewrite backend and of the inner re-parse, whenever
`_lint` returns it returns a result with non-empty `lyrics.text`; and if
the rewritten result's text is empty, `_lint` returns the original input
unchanged. -/
theorem lint_never_empties_lyrics :
    ∀ parsed lyr t rwResp repResp r,
      pyIndex parsed kLyrics = some lyr →
      pyIndex lyr kText = some (.str t) →
      t ≠ [] →
      lintRun parsed rwResp repResp = some r →
      (∃ lyr2 t2, pyIndex r kLyrics = some lyr2 ∧ pyIndex lyr2 kText = some (.str t2) ∧
        t2 ≠ []) ∧
      (∀ s, rwResp = some s →
        ∀ flyr ft, pyIndex (parseCascade s repResp) kLyrics = some flyr →
          pyIndex flyr kText = some (.str ft) → ft = [] → r = parsed) := by
  intro parsed lyr t rwResp repResp r hly htx hne hrun
  have hfound : lintFound parsed
      = some (BANNED.filter (fun p => infixOf p (pyLower t))) := by
    unfold lintFound
    simp only [hly, htx]
  unfold lintRun at hrun
  simp only [hfound] at hrun
  by_cases hemp : (BANNED.filter (fun p => infixOf p (pyLower t))).isEmpty = true
  · rw [if_pos hemp] at hrun
    have hr : r = parsed := (Option.some.inj hrun).symm
    subst hr
    exact ⟨⟨lyr, t, hly, htx, hne⟩, fun _ _ _ _ _ _ _ => rfl⟩
  · rw [if_neg hemp] at hrun
    cases rwResp with
    | none => exact Option.noConfusion hrun
    | some s =>
      have hfx : validSR (parseCascade s repResp) = true := parseCascade_validSR s repResp
      obtain ⟨flyr, ft, hfl, hft⟩ := validSR_lyricsText _ hfx
      simp only [hfl, hft] at hrun
      by_cases hfe : ft.isEmpty = true
      · have htr : truthy (.str ft) = false := by
          show (!ft.isEmpty) = false
          rw [hfe]
          rfl
        rw [htr] at hrun
        rw [if_neg (fun hfalse => Bool.noConfusion hfalse)] at hrun
        have hr : r = parsed := (Option.some.inj hrun).symm
        subst hr
        exact ⟨⟨lyr, t, hly, htx, hne⟩, fun _ _ _ _ _ _ _ => rfl⟩
      · have hfe2 : ft.isEmpty = false := by
          cases hh : ft.isEmpty with
          | true => exact absurd hh hfe
          | false => rfl
        have htr : truthy (.str ft) = true := by
          show (!ft.isEmpty) = true
          rw [hfe2]
          rfl
        rw [htr] at hrun
        rw [if_pos rfl] at hrun
        have hr : r = parseCascade s repResp := (Option.some.inj hrun).symm
        refine ⟨⟨flyr, ft, hr ▸ hfl, hft, fun hc => ?_⟩, ?_⟩
        · rw [hc] at hfe
          exact hfe rfl
        · intro s2 hs2 flyr2 ft2 hfl2 hft2 hfe2
          have hseq : s2 = s := (Option.some.inj hs2).symm
          subst hseq
          rw [hfl] at hfl2
          have hfeq : flyr2 = flyr := (Option.some.inj hfl2).symm
          subst hfeq
          rw [hft] at hft2
          have hteq : ft2 = ft := (JValue.str.inj (Option.some.inj hft2)).symm
          refine absurd (?_ : ft.isEmpty = true) hfe
          rw [← hteq, hfe2]
          rfl

/-- C6 (witness): lyrics text `hello` (no banned phrase, rewrite backend
raising) passes through `_lint` with its non-empty text intact. -/
theorem lint_never_empties_witness :
    ∃ lyr2 t2,
      pyIndex (mkSR [] [] [] [] 100 [] [] [] "hello".toList [] [] false []) kLyrics
        = some lyr2 ∧
      pyIndex lyr2 kText = some (.str t2) ∧ t2 ≠ [] :=
  (lint_never_empties_lyrics
    (mkSR [] [] [] [] 100 [] [] [] "hello".toList [] [] false [])
    (.obj [(kStructure, .arr []), (kText, .str "hello".toList)])
    "hello".toList none none
    (mkSR [] [] [] [] 100 [] [] [] "hello".toList [] [] false [])
    rfl rfl (by decide) rfl).1

/-- C9 (counterexample): with a non-empty message and a raising
music-generation stage, `on_submit` propagates the exception — it yields
no terminal error snapshot at all; and with a raising lyrics stage it
does not abort: the music stage still runs and the generator returns
normally. -/
theorem stage_failure_cex :
    (onSubmitTrace "hi".toList [] false true 0 0 0 (Except.ok "la".toList)
        (Except.error () : Except Unit Unit) (.ok "p".toList) (.ok ())
        (.ok "q".toList)).outcome = Except.error () ∧
    ((onSubmitTrace "hi".toList [] false true 0 0 0 (Except.ok "la".toList)
        (Except.error () : Except Unit Unit) (.ok "p".toList) (.ok ())
        (.ok "q".toList)).yields.all (fun y => !y.errorCard)) = true ∧
    (onSubmitTrace "hi".toList [] false true 0 0 0 (Except.error ())
        (Except.ok () : Except Unit Unit) (.ok "p".toList) (.ok ())
        (.ok "q".toList)).outcome = Except.ok () ∧
    Stage.musicStage ∈ (onSubmitTrace "hi".toList [] false true 0 0 0 (Except.error ())
        (Except.ok () : Except Unit Unit) (.ok "p".toList) (.ok ())
        (.ok "q".toList)).ran :=
  ⟨rfl, rfl, rfl, by decide⟩

theorem all_replicate_progSnap (n : Nat) :
    (List.replicate n progSnap).all (fun y => !y.errorCard && y.audio.isNone) = true := by
  induction n with
  | zero => rfl
  | succ k ih => simp [List.replicate_succ, List.all_cons, ih, progSnap]

/-- C9 (amended): a raising music stage makes `on_submit` re-raise -- the
run ends with the exception as its outcome, the vocal/save/mix stages are
never dispatched and no yielded snapshot carries an error card or an
audio path; a raising vocal stage likewise aborts before the mix stage;
and `_helper_core` (unlike `on_submit`) ends a failed run by yielding a
terminal error card and returning normally. -/
theorem stage_failure_amended {ε : Type} :
    (∀ (message customLyrics : Str) (musicOnly olReady : Bool) (s1 sM sV : Nat)
        (lyricsOut : Except ε Str) (e : ε) (saveOut : Except ε Str)
        (vocalOut : Except ε Unit) (mixOut : Except ε Str),
      (stripCh message).isEmpty = false →
      (onSubmitTrace message customLyrics musicOnly olReady s1 sM sV lyricsOut
          (.error e) saveOut vocalOut mixOut).outcome = Except.error e ∧
      Stage.vocalsStage ∉ (onSubmitTrace message customLyrics musicOnly olReady s1 sM sV
          lyricsOut (.error e) saveOut vocalOut mixOut).ran ∧
      Stage.saveStage ∉ (onSubmitTrace message customLyrics musicOnly olReady s1 sM sV
          lyricsOut (.error e) saveOut vocalOut mixOut).ran ∧
      Stage.mixStage ∉ (onSubmitTrace message customLyrics musicOnly olReady s1 sM sV
          lyricsOut (.error e) saveOut vocalOut mixOut).ran ∧
      ((onSubmitTrace message customLyrics musicOnly olReady s1 sM sV lyricsOut
          (.error e) saveOut vocalOut mixOut).yields.all
        (fun y => !y.errorCard && y.audio.isNone)) = true) ∧
    (∀ (message customLyrics : Str) (olReady : Bool) (s1 sM sV : Nat)
        (lyricsOut : Except ε Str) (e : ε) (saveOut : Except ε Str) (mixOut : Except ε Str),
      (stripCh message).isEmpty = false →
      (onSubmitTrace message customLyrics false olReady s1 sM sV lyricsOut
          (.ok ()) saveOut (.error e) mixOut).outcome = Except.error e ∧
      Stage.mixStage ∉ (onSubmitTrace message customLyrics false olReady s1 sM sV lyricsOut
          (.ok ()) saveOut (.error e) mixOut).ran ∧
      ((onSubmitTrace message customLyrics false olReady s1 sM sV lyricsOut
          (.ok ()) saveOut (.error e) mixOut).yields.all
        (fun y => !y.errorCard && y.audio.isNone)) = true) ∧
    (∀ (e : ε) (spin : Nat),
      (helperCoreTrace (.error e) spin).outcome = Except.ok () ∧
      (helperCoreTrace (.error e) spin).yields.getLast? = some ⟨true, none⟩) := by
  refine ⟨?_, ?_, ?_⟩
  · intro message customLyrics musicOnly olReady s1 sM sV lyricsOut e saveOut vocalOut
      mixOut hmsg
    unfold onSubmitTrace
    rw [if_neg (by simp [hmsg])]
    cases musicOnly with
    | true =>
      refine ⟨rfl, by simp, by simp, by simp, ?_⟩
      cases olReady <;>
        simp [List.all_append, all_replicate_progSnap, progSnap]
    | false =>
      cases hcl : (stripCh customLyrics).isEmpty with
      | false =>
        refine ⟨rfl, by simp, by simp, by simp, ?_⟩
        cases olReady <;>
          simp [List.all_append, all_replicate_progSnap, progSnap]
      | true =>
        refine ⟨rfl, by simp, by simp, by simp, ?_⟩
        cases olReady <;>
          simp [List.all_append, all_replicate_progSnap, progSnap]
  · intro message customLyrics olReady s1 sM sV lyricsOut e saveOut mixOut hmsg
    unfold onSubmitTrace
    rw [if_neg (by simp [hmsg])]
    cases hcl : (stripCh customLyrics).isEmpty with
    | false =>
      refine ⟨rfl, by simp, ?_⟩
      cases olReady <;>
        simp [List.all_append, all_replicate_progSnap, progSnap]
    | true =>
      refine ⟨rfl, by simp, ?_⟩
      cases olReady <;>
        simp [List.all_append, all_replicate_progSnap, progSnap]
  · intro e spin
    unfold helperCoreTrace
    exact ⟨rfl, List.getLast?_concat _⟩

/-- C9 (witness): the amended statement at a concrete failing run. -/
theorem stage_failure_amended_witness :
    (onSubmitTrace "hi".toList [] false true 1 1 1 (Except.ok "la".toList)
        (Except.error () : Except Unit Unit) (.ok "p".toList) (.ok ())
        (.ok "q".toList)).outcome = Except.error () ∧
    Stage.vocalsStage ∉ (onSubmitTrace "hi".toList [] false true 1 1 1
        (Except.ok "la".toList) (Except.error () : Except Unit Unit) (.ok "p".toList)
        (.ok ()) (.ok "q".toList)).ran :=
  have h := (@stage_failure_amended Unit).1 "hi".toList [] false true 1 1 1
    (.ok "la".toList) () (.ok "p".toList) (.ok ()) (.ok "q".toList) rfl
  ⟨h.1, h.2.1⟩

/-! ### Scanner lemmas for `_close_truncated_json` -/

theorem scanChar_neutral (st : ScanSt) (c : Char) (hesc : st.esc = false)
    (hq : c ≠ '"') (hob : c ≠ '\x7b') (hcb : c ≠ '\x7d') (hos : c ≠ '[') (hcs : c ≠ ']')
    (hbs : st.inStr = true → c ≠ '\\') : scanChar st c = st := by
  unfold scanChar
  rw [if_neg (by simp [hesc])]
  rw [if_neg ?hb]
  case hb =>
    intro hand
    rw [Bool.and_eq_true] at hand
    exact hbs hand.2 (by simpa using hand.1)
  rw [if_neg (by simp [hq])]
  rw [if_neg (by simp [hob, hos])]
  rw [if_neg (by simp [hcb, hcs])]

theorem scan_escChars (s : Str) (stk : List Char) :
    (escChars s).foldl scanChar ⟨false, true, stk⟩ = ⟨false, true, stk⟩ := by
  induction s with
  | nil => rfl
  | cons c t ih =>
    rw [show escChars (c :: t) = escCh c ++ escChars t from rfl, List.foldl_append]
    have hc : (escCh c).foldl scanChar ⟨false, true, stk⟩ = (⟨false, true, stk⟩ : ScanSt) := by
      unfold escCh
      by_cases h1 : c = '"'
      · rw [if_pos h1]; rfl
      rw [if_neg h1]
      by_cases h2 : c = '\\'
      · rw [if_pos h2]; rfl
      rw [if_neg h2]
      by_cases h3 : c = '\n'
      · rw [if_pos h3]; rfl
      rw [if_neg h3]
      by_cases h4 : c = '\t'
      · rw [if_pos h4]; rfl
      rw [if_neg h4]
      by_cases h5 : c = '\r'
      · rw [if_pos h5]; rfl
      rw [if_neg h5]
      show scanChar ⟨false, true, stk⟩ c = ⟨false, true, stk⟩
      unfold scanChar
      rw [if_neg (by simp)]
      rw [if_neg (by simp [h2])]
      rw [if_neg (by simp [h1])]
      rw [if_neg (by simp)]
      rw [if_neg (by simp)]
    rw [hc, ih]

theorem notSpecial_digitChar (d : Nat) (hd : d < 10) :
    digitChar d ≠ '"' ∧ digitChar d ≠ '\x7b' ∧ digitChar d ≠ '\x7d' ∧
    digitChar d ≠ '[' ∧ digitChar d ≠ ']' ∧ digitChar d ≠ '\\' ∧
    isPyWs (digitChar d) = false ∧ (digitChar d).isDigit = true ∧
    isJsonWs (digitChar d) = false ∧ (digitChar d).toNat - 48 = d := by
  interval_cases d <;> exact (by decide)

theorem scan_natCharsAux (f n : Nat) (st : ScanSt) (hesc : st.esc = false)
    (hstr : st.inStr = false) :
    (natCharsAux f n).foldl scanChar st = st := by
  induction f generalizing n with
  | zero => rfl
  | succ k ih =>
    unfold natCharsAux
    by_cases h : n < 10
    · rw [if_pos h]
      obtain ⟨h1, h2, h3, h4, h5, h6, -, -⟩ := notSpecial_digitChar (n) h
      show scanChar st (digitChar n) = st
      exact scanChar_neutral st _ hesc h1 h2 h3 h4 h5 (fun hs => absurd hs (by simp [hstr]))
    · rw [if_neg h]
      rw [List.foldl_append, ih (n / 10)]
      have hm : n % 10 < 10 := Nat.mod_lt _ (by decide)
      obtain ⟨h1, h2, h3, h4, h5, h6, -, -⟩ := notSpecial_digitChar (n % 10) hm
      show scanChar st (digitChar (n % 10)) = st
      exact scanChar_neutral st _ hesc h1 h2 h3 h4 h5 (fun hs => absurd hs (by simp [hstr]))

theorem scan_intChars (n : Int) (st : ScanSt) (hesc : st.esc = false)
    (hstr : st.inStr = false) : (intChars n).foldl scanChar st = st := by
  unfold intChars
  by_cases h : n < 0
  · rw [if_pos h]
    rw [List.foldl_cons]
    have hminus : scanChar st '-' = st :=
      scanChar_neutral st _ hesc (by decide) (by decide) (by decide) (by decide) (by decide)
        (fun hs => absurd hs (by simp [hstr]))
    rw [hminus]
    exact scan_natCharsAux _ _ _ hesc hstr
  · rw [if_neg h]
    exact scan_natCharsAux _ _ _ hesc hstr

theorem scan_quote_open (stk : List Char) :
    scanChar ⟨false, false, stk⟩ '"' = ⟨false, true, stk⟩ := rfl

theorem scan_quote_close (stk : List Char) :
    scanChar ⟨false, true, stk⟩ '"' = ⟨false, false, stk⟩ := rfl

mutual
theorem scan_dumpV (v : JValue) (stk : List Char) :
    (dumpV v).foldl scanChar ⟨false, false, stk⟩ = ⟨false, false, stk⟩ := by
  cases v with
  | null => rfl
  | bool b => cases b <;> rfl
  | num n => exact scan_intChars n _ rfl rfl
  | str s =>
    simp only [dumpV, List.foldl_append, List.foldl_cons, List.foldl_nil]
    rw [scan_quote_open, scan_escChars, scan_quote_close]
  | arr xs =>
    cases xs with
    | nil => rfl
    | cons x t =>
      simp only [dumpV, List.foldl_append, List.foldl_cons, List.foldl_nil]
      rw [show scanChar ⟨false, false, stk⟩ '[' = ⟨false, false, '[' :: stk⟩ from rfl]
      rw [scan_dumpV x, scan_dumpElems t]
      rfl
  | obj fs =>
    cases fs with
    | nil => rfl
    | cons f t =>
      simp only [dumpV, List.foldl_append, List.foldl_cons, List.foldl_nil]
      rw [show scanChar ⟨false, false, stk⟩ '\x7b' = ⟨false, false, '\x7b' :: stk⟩ from rfl]
      rw [scan_dumpField f, scan_dumpFields t]
      rfl

theorem scan_dumpElems (xs : List JValue) (stk : List Char) :
    (dumpElems xs).foldl scanChar ⟨false, false, stk⟩ = ⟨false, false, stk⟩ := by
  cases xs with
  | nil => rfl
  | cons x t =>
    simp only [dumpElems, List.foldl_append, List.foldl_cons, List.foldl_nil]
    rw [show scanChar ⟨false, false, stk⟩ ',' = ⟨false, false, stk⟩ from rfl]
    rw [show scanChar ⟨false, false, stk⟩ ' ' = ⟨false, false, stk⟩ from rfl]
    rw [scan_dumpV x]
    exact scan_dumpElems t stk

theorem scan_dumpField (f : Str × JValue) (stk : List Char) :
    (dumpField f).foldl scanChar ⟨false, false, stk⟩ = ⟨false, false, stk⟩ := by
  obtain ⟨k, v⟩ := f
  simp only [dumpField, List.foldl_append, List.foldl_cons, List.foldl_nil]
  rw [scan_quote_open, scan_escChars, scan_quote_close]
  rw [show scanChar ⟨false, false, stk⟩ ':' = ⟨false, false, stk⟩ from rfl]
  rw [show scanChar ⟨false, false, stk⟩ ' ' = ⟨false, false, stk⟩ from rfl]
  exact scan_dumpV v stk

theorem scan_dumpFields (fs : List (Str × JValue)) (stk : List Char) :
    (dumpFields fs).foldl scanChar ⟨false, false, stk⟩ = ⟨false, false, stk⟩ := by
  cases fs with
  | nil => rfl
  | cons f t =>
    simp only [dumpFields, List.foldl_append, List.foldl_cons, List.foldl_nil]
    rw [show scanChar ⟨false, false, stk⟩ ',' = ⟨false, false, stk⟩ from rfl]
    rw [show scanChar ⟨false, false, stk⟩ ' ' = ⟨false, false, stk⟩ from rfl]
    rw [scan_dumpField f]
    exact scan_dumpFields t stk
end

theorem getLast?_cons_of_ne_nil (c : Char) (A : Str) (h : A ≠ []) :
    (c :: A).getLast? = A.getLast? := by
  cases A with
  | nil => exact absurd rfl h
  | cons b u => exact List.getLast?_cons_cons

theorem natCharsAux_last (f n : Nat) (hf : f ≠ 0) :
    ∃ d, d < 10 ∧ (natCharsAux f n).getLast? = some (digitChar d) := by
  cases f with
  | zero => exact absurd rfl hf
  | succ k =>
    unfold natCharsAux
    by_cases h : n < 10
    · rw [if_pos h]
      exact ⟨n, h, rfl⟩
    · rw [if_neg h]
      exact ⟨n % 10, Nat.mod_lt _ (by decide), List.getLast?_concat _⟩

theorem natCharsAux_ne_nil (f n : Nat) (hf : f ≠ 0) : natCharsAux f n ≠ [] := by
  obtain ⟨d, -, hd⟩ := natCharsAux_last f n hf
  intro he
  rw [he] at hd
  exact Option.noConfusion hd

theorem intChars_last (n : Int) :
    ∃ c, (intChars n).getLast? = some c ∧ isPyWs c = false := by
  unfold intChars natChars
  by_cases h : n < 0
  · rw [if_pos h]
    rw [getLast?_cons_of_ne_nil _ _ (natCharsAux_ne_nil _ _ (Nat.succ_ne_zero _))]
    obtain ⟨d, hd10, hd⟩ := natCharsAux_last (n.natAbs + 1) n.natAbs (Nat.succ_ne_zero _)
    exact ⟨digitChar d, hd, (notSpecial_digitChar d hd10).2.2.2.2.2.2.1⟩
  · rw [if_neg h]
    obtain ⟨d, hd10, hd⟩ := natCharsAux_last (n.toNat + 1) n.toNat (Nat.succ_ne_zero _)
    exact ⟨digitChar d, hd, (notSpecial_digitChar d hd10).2.2.2.2.2.2.1⟩

theorem dumpV_last_not_ws (v : JValue) :
    ∀ c, (dumpV v).getLast? = some c → isPyWs c = false := by
  intro c hc
  cases v with
  | null =>
    rw [show (dumpV .null).getLast? = some 'l' from rfl] at hc
    rw [← Option.some.inj hc]
    decide
  | bool b =>
    cases b with
    | true =>
      rw [show (dumpV (.bool true)).getLast? = some 'e' from rfl] at hc
      rw [← Option.some.inj hc]
      decide
    | false =>
      rw [show (dumpV (.bool false)).getLast? = some 'e' from rfl] at hc
      rw [← Option.some.inj hc]
      decide
  | num n =>
    obtain ⟨c2, hc2, hw⟩ := intChars_last n
    rw [show dumpV (.num n) = intChars n from rfl, hc2] at hc
    rw [← Option.some.inj hc]
    exact hw
  | str s =>
    rw [show dumpV (.str s) = '"' :: (escChars s ++ ['"']) from rfl] at hc
    rw [getLast?_cons_of_ne_nil _ _ (by simp), List.getLast?_concat] at hc
    rw [← Option.some.inj hc]
    decide
  | arr xs =>
    cases xs with
    | nil =>
      rw [show (dumpV (.arr [])).getLast? = some ']' from rfl] at hc
      rw [← Option.some.inj hc]
      decide
    | cons x t =>
      rw [show dumpV (.arr (x :: t)) = '[' :: ((dumpV x ++ dumpElems t) ++ [']'])
        from rfl] at hc
      rw [getLast?_cons_of_ne_nil _ _ (by simp), List.getLast?_concat] at hc
      rw [← Option.some.inj hc]
      decide
  | obj fs =>
    cases fs with
    | nil =>
      rw [show (dumpV (.obj [])).getLast? = some '\x7d' from rfl] at hc
      rw [← Option.some.inj hc]
      decide
    | cons f t =>
      rw [show dumpV (.obj (f :: t)) = '\x7b' :: ((dumpField f ++ dumpFields t) ++ ['\x7d'])
        from rfl] at hc
      rw [getLast?_cons_of_ne_nil _ _ (by simp), List.getLast?_concat] at hc
      rw [← Option.some.inj hc]
      decide

theorem rstripCh_dumpV (v : JValue) : rstripCh (dumpV v) = dumpV v :=
  rstripCh_eq_self_of_last _ (dumpV_last_not_ws v)

theorem scanBalanced_dumpV (v : JValue) : scanBalanced (dumpV v) = true := by
  unfold scanBalanced
  rw [scan_dumpV v []]
  rfl

theorem closeTruncated_of_balanced (raw : Str) (h : scanBalanced (rstripCh raw) = true) :
    closeTruncatedJson raw = rstripCh raw := by
  unfold closeTruncatedJson
  unfold scanBalanced at h
  rw [Bool.and_eq_true] at h
  obtain ⟨hstr, hstk⟩ := h
  by_cases he : (rstripCh raw).isEmpty
  · rw [if_pos he]
  · rw [if_neg he]
    have h1 : ((rstripCh raw).foldl scanChar ⟨false, false, []⟩).inStr = false := by
      cases hx : ((rstripCh raw).foldl scanChar ⟨false, false, []⟩).inStr with
      | false => rfl
      | true => rw [hx] at hstr; exact Bool.noConfusion hstr
    have h2 : ((rstripCh raw).foldl scanChar ⟨false, false, []⟩).stack = [] := by
      rwa [List.isEmpty_iff] at hstk
    simp [h1, h2]

/-- C10: `_close_truncated_json` returns its input unchanged (up to
trailing-whitespace removal) whenever the scan finds no open string and
no unmatched opener — in particular on every serialized JSON value, so
the truncation-close strategy never alters well-formed backend output. -/
theorem close_truncated_noop :
    (∀ s, scanBalanced (rstripCh s) = true → closeTruncatedJson s = rstripCh s) ∧
    (∀ v : JValue, closeTruncatedJson (dumpV v) = dumpV v) := by
  constructor
  · exact closeTruncated_of_balanced
  · intro v
    rw [closeTruncated_of_balanced (dumpV v) (by rw [rstripCh_dumpV]; exact scanBalanced_dumpV v)]
    exact rstripCh_dumpV v

/-- C10 (witness): on `[] ` (with trailing whitespace) the close pass
only strips; on a serialized object it is the identity. -/
theorem close_truncated_noop_witness :
    closeTruncatedJson "[] ".toList = "[]".toList ∧
    closeTruncatedJson (dumpV (.obj [("a".toList, .num 1)]))
      = dumpV (.obj [("a".toList, .num 1)]) := by
  constructor
  · rw [close_truncated_noop.1 ("[] ".toList) rfl]
    rfl
  · exact close_truncated_noop.2 (.obj [("a".toList, .num 1)])

/-! ### Round-trip lemmas: the parser inverts the serializer -/

theorem skipWs_cons_of_not_ws (c : Char) (t : Str) (h : isJsonWs c = false) :
    skipWs (c :: t) = c :: t := by
  unfold skipWs
  simp [List.dropWhile, h]

theorem skipWs_cons_of_ws (c : Char) (t : Str) (h : isJsonWs c = true) :
    skipWs (c :: t) = skipWs t := by
  unfold skipWs
  simp [List.dropWhile, h]

theorem parseVal_cons_ws (f : Nat) (c : Char) (t : Str) (h : isJsonWs c = true) :
    parseVal f (c :: t) = parseVal f t := by
  cases f with
  | zero => rfl
  | succ k =>
    show (match skipWs (c :: t) with
          | 'n' :: 'u' :: 'l' :: 'l' :: r => some (JValue.null, r)
          | 't' :: 'r' :: 'u' :: 'e' :: r => some (JValue.bool true, r)
          | 'f' :: 'a' :: 'l' :: 's' :: 'e' :: r => some (JValue.bool false, r)
          | '"' :: r => (parseStrA r).map (fun p => (JValue.str p.1, p.2))
          | '-' :: r => (parseDigs r).map (fun p => (JValue.num (-(Int.ofNat p.1)), p.2))
          | '[' :: r =>
            (match skipWs r with
             | ']' :: r2 => some (JValue.arr [], r2)
             | r2 => (parseElems k r2).map (fun p => (JValue.arr p.1, p.2)))
          | '\x7b' :: r =>
            (match skipWs r with
             | '\x7d' :: r2 => some (JValue.obj [], r2)
             | r2 => (parseFields k r2).map (fun p => (JValue.obj p.1, p.2)))
          | c2 :: r =>
            if c2.isDigit then (parseDigs (c2 :: r)).map (fun p => (JValue.num (Int.ofNat p.1), p.2))
            else none
          | [] => none) = parseVal (k + 1) t
    rw [skipWs_cons_of_ws c t h]
    rfl

theorem parseElems_cons_ws (f : Nat) (c : Char) (t : Str) (h : isJsonWs c = true) :
    parseElems f (c :: t) = parseElems f t := by
  cases f with
  | zero => rfl
  | succ k =>
    show (match parseVal k (c :: t) with
          | none => none
          | some (v, r) =>
            match skipWs r with
            | ',' :: r2 => (parseElems k r2).map (fun p => (v :: p.1, p.2))
            | ']' :: r2 => some ([v], r2)
            | _ => none) = parseElems (k + 1) t
    rw [parseVal_cons_ws k c t h]
    rfl

theorem parseFields_cons_ws (f : Nat) (c : Char) (t : Str) (h : isJsonWs c = true) :
    parseFields f (c :: t) = parseFields f t := by
  cases f with
  | zero => rfl
  | succ k =>
    show (match skipWs (c :: t) with
          | '"' :: r =>
            match parseStrA r with
            | none => none
            | some (k2, r1) =>
              match skipWs r1 with
              | ':' :: r2 =>
                match parseVal k r2 with
                | none => none
                | some (v, r3) =>
                  match skipWs r3 with
                  | ',' :: r4 => (parseFields k r4).map (fun p => ((k2, v) :: p.1, p.2))
                  | '\x7d' :: r4 => some ([(k2, v)], r4)
                  | _ => none
              | _ => none
          | _ => none) = parseFields (k + 1) t
    rw [skipWs_cons_of_ws c t h]
    rfl

theorem parseStrA_escChars (s rest : Str) :
    parseStrA (escChars s ++ '"' :: rest) = some (s, rest) := by
  induction s with
  | nil => rfl
  | cons c t ih =>
    rw [show escChars (c :: t) = escCh c ++ escChars t from rfl, List.append_assoc]
    unfold escCh
    by_cases h1 : c = '"'
    · rw [if_pos h1]
      show (parseStrA (escChars t ++ '"' :: rest)).map (fun p => ('"' :: p.1, p.2))
        = some (c :: t, rest)
      rw [ih, h1]
      rfl
    rw [if_neg h1]
    by_cases h2 : c = '\\'
    · rw [if_pos h2]
      show (parseStrA (escChars t ++ '"' :: rest)).map (fun p => ('\\' :: p.1, p.2))
        = some (c :: t, rest)
      rw [ih, h2]
      rfl
    rw [if_neg h2]
    by_cases h3 : c = '\n'
    · rw [if_pos h3]
      show (parseStrA (escChars t ++ '"' :: rest)).map (fun p => ('\n' :: p.1, p.2))
        = some (c :: t, rest)
      rw [ih, h3]
      rfl
    rw [if_neg h3]
    by_cases h4 : c = '\t'
    · rw [if_pos h4]
      show (parseStrA (escChars t ++ '"' :: rest)).map (fun p => ('\t' :: p.1, p.2))
        = some (c :: t, rest)
      rw [ih, h4]
      rfl
    rw [if_neg h4]
    by_cases h5 : c = '\r'
    · rw [if_pos h5]
      show (parseStrA (escChars t ++ '"' :: rest)).map (fun p => ('\r' :: p.1, p.2))
        = some (c :: t, rest)
      rw [ih, h5]
      rfl
    rw [if_neg h5]
    show parseStrA (c :: (escChars t ++ '"' :: rest)) = some (c :: t, rest)
    unfold parseStrA
    split
    · rename_i heq
      exact List.noConfusion heq
    · rename_i r heq
      exact absurd (List.cons.inj heq).1 h1
    · rename_i e r heq
      exact absurd (List.cons.inj heq).1 h2
    · rename_i heq
      exact absurd (List.cons.inj heq).1 h2
    · rename_i c2 r heq
      obtain ⟨hc2, hr⟩ := List.cons.inj heq
      rw [← hr, ih, ← hc2]
      rfl

theorem parseDigsAux_append (ds : Str) (hd : ∀ c ∈ ds, c.isDigit = true) :
    ∀ (acc : Nat) (rest : Str), (∀ c cs, rest = c :: cs → c.isDigit = false) →
    parseDigsAux acc (ds ++ rest)
      = (ds.foldl (fun a c => a * 10 + (c.toNat - 48)) acc, rest) := by
  induction ds with
  | nil =>
    intro acc rest hrest
    cases rest with
    | nil => rfl
    | cons c cs =>
      show parseDigsAux acc (c :: cs) = (acc, c :: cs)
      unfold parseDigsAux
      rw [if_neg (by simp [hrest c cs rfl])]
  | cons c t ih =>
    intro acc rest hrest
    show parseDigsAux acc (c :: (t ++ rest)) = _
    unfold parseDigsAux
    rw [if_pos (by simp [hd c (List.mem_cons_self c t)])]
    rw [ih (fun c2 hc2 => hd c2 (List.mem_cons_of_mem c hc2)) _ _ hrest]
    rfl

theorem natCharsAux_all_digits (f : Nat) : ∀ (n : Nat), ∀ c ∈ natCharsAux f n,
    c.isDigit = true := by
  induction f with
  | zero => intro n c hc; simp [natCharsAux] at hc
  | succ k ih =>
    intro n c hc
    unfold natCharsAux at hc
    by_cases h : n < 10
    · rw [if_pos h] at hc
      rw [List.mem_singleton] at hc
      rw [hc]
      exact (notSpecial_digitChar n h).2.2.2.2.2.2.2.1
    · rw [if_neg h] at hc
      rw [List.mem_append] at hc
      rcases hc with hc | hc
      · exact ih (n / 10) c hc
      · rw [List.mem_singleton] at hc
        rw [hc]
        exact (notSpecial_digitChar _ (Nat.mod_lt _ (by decide))).2.2.2.2.2.2.2.1

theorem natCharsAux_foldl (f : Nat) : ∀ (n acc : Nat), n < f →
    (natCharsAux f n).foldl (fun a c => a * 10 + (c.toNat - 48)) acc
      = acc * 10 ^ (natCharsAux f n).length + n := by
  induction f with
  | zero => intro n acc h; exact absurd h (Nat.not_lt_zero n)
  | succ k ih =>
    intro n acc h
    unfold natCharsAux
    by_cases h10 : n < 10
    · rw [if_pos h10]
      show acc * 10 + ((digitChar n).toNat - 48) = acc * 10 ^ 1 + n
      rw [(notSpecial_digitChar n h10).2.2.2.2.2.2.2.2.2]
      ring
    · rw [if_neg h10]
      rw [List.foldl_append]
      have hdiv : n / 10 < k := by
        have h1 : n / 10 < n := Nat.div_lt_self (by omega) (by decide)
        omega
      rw [ih (n / 10) acc hdiv]
      show (acc * 10 ^ (natCharsAux k (n / 10)).length + n / 10) * 10
          + ((digitChar (n % 10)).toNat - 48) = _
      rw [(notSpecial_digitChar _ (Nat.mod_lt _ (by decide))).2.2.2.2.2.2.2.2.2]
      rw [List.length_append, List.length_singleton]
      rw [pow_succ]
      have := Nat.div_add_mod n 10
      ring_nf
      omega

theorem natCharsAux_head (f : Nat) : ∀ (n : Nat), f ≠ 0 →
    ∃ d, d < 10 ∧ ∃ ds, natCharsAux f n = digitChar d :: ds := by
  induction f with
  | zero => intro n h; exact absurd rfl h
  | succ k ih =>
    intro n _
    unfold natCharsAux
    by_cases h10 : n < 10
    · rw [if_pos h10]
      exact ⟨n, h10, [], rfl⟩
    · rw [if_neg h10]
      cases hk : k with
      | zero =>
        rw [show natCharsAux 0 (n / 10) = [] from rfl]
        exact ⟨n % 10, Nat.mod_lt _ (by decide), [], rfl⟩
      | succ k2 =>
        obtain ⟨d, hd10, ds, hds⟩ := ih (n / 10) (by omega)
        rw [← hk, hds]
        exact ⟨d, hd10, ds ++ [digitChar (n % 10)], rfl⟩

theorem parseDigs_natChars (n : Nat) (rest : Str)
    (hrest : ∀ c cs, rest = c :: cs → c.isDigit = false) :
    parseDigs (natChars n ++ rest) = some (n, rest) := by
  obtain ⟨d, hd10, ds, hds⟩ := natCharsAux_head (n + 1) n (Nat.succ_ne_zero n)
  have hall := natCharsAux_all_digits (n + 1) n
  have hfold := natCharsAux_foldl (n + 1) n 0 (Nat.lt_succ_self n)
  unfold natChars
  rw [hds] at hall hfold ⊢
  show (if (digitChar d).isDigit = true
        then some (parseDigsAux ((digitChar d).toNat - 48) (ds ++ rest)) else none)
      = some (n, rest)
  rw [if_pos ((notSpecial_digitChar d hd10).2.2.2.2.2.2.2.1)]
  rw [parseDigsAux_append ds (fun c hc => hall c (List.mem_cons_of_mem _ hc)) _ _ hrest]
  rw [List.foldl_cons] at hfold
  rw [show (0 : Nat) * 10 + ((digitChar d).toNat - 48) = (digitChar d).toNat - 48 from by
    omega] at hfold
  rw [hfold]
  simp

theorem digitChar_ne_lit (d : Nat) (hd : d < 10) :
    digitChar d ≠ 'n' ∧ digitChar d ≠ 't' ∧ digitChar d ≠ 'f' ∧ digitChar d ≠ '-' := by
  interval_cases d <;> exact (by decide)

theorem szV_pos (v : JValue) : 1 ≤ szV v := by
  cases v <;> (unfold szV) <;> omega

theorem szL_pos (xs : List JValue) : 1 ≤ szL xs := by
  cases xs <;> (unfold szL) <;> omega

theorem szF_pos (fs : List (Str × JValue)) : 1 ≤ szF fs := by
  cases fs with
  | nil => exact Nat.le_refl 1
  | cons f t =>
    obtain ⟨k, v⟩ := f
    unfold szF
    omega

theorem dumpV_head (v : JValue) :
    ∃ c cs, dumpV v = c :: cs ∧ isJsonWs c = false ∧ c ≠ ']' ∧ c ≠ '\x7d' := by
  cases v with
  | null => refine ⟨'n', _, rfl, ?_, ?_, ?_⟩ <;> decide
  | bool b =>
    cases b with
    | true => refine ⟨'t', _, rfl, ?_, ?_, ?_⟩ <;> decide
    | false => refine ⟨'f', _, rfl, ?_, ?_, ?_⟩ <;> decide
  | num n =>
    show ∃ c cs, intChars n = c :: cs ∧ _
    unfold intChars natChars
    by_cases h : n < 0
    · rw [if_pos h]
      refine ⟨'-', _, rfl, ?_, ?_, ?_⟩ <;> decide
    · rw [if_neg h]
      obtain ⟨d, hd10, ds, hds⟩ := natCharsAux_head (n.toNat + 1) n.toNat (Nat.succ_ne_zero _)
      refine ⟨digitChar d, ds, hds, ?_, ?_, ?_⟩
      · exact (notSpecial_digitChar d hd10).2.2.2.2.2.2.2.2.1
      · exact (notSpecial_digitChar d hd10).2.2.2.2.1
      · exact (notSpecial_digitChar d hd10).2.2.1
  | str s => refine ⟨'"', _, rfl, ?_, ?_, ?_⟩ <;> decide
  | arr xs =>
    cases xs with
    | nil => refine ⟨'[', _, rfl, ?_, ?_, ?_⟩ <;> decide
    | cons x t => refine ⟨'[', _, rfl, ?_, ?_, ?_⟩ <;> decide
  | obj fs =>
    cases fs with
    | nil => refine ⟨'\x7b', _, rfl, ?_, ?_, ?_⟩ <;> decide
    | cons f t => refine ⟨'\x7b', _, rfl, ?_, ?_, ?_⟩ <;> decide

theorem parseVal_succ_lbrack (k : Nat) (r : Str) :
    parseVal (k + 1) ('[' :: r)
      = (match skipWs r with
         | ']' :: r2 => some (.arr [], r2)
         | r2 => (parseElems k r2).map (fun p => (.arr p.1, p.2))) := rfl

theorem parseVal_succ_lbrace (k : Nat) (r : Str) :
    parseVal (k + 1) ('\x7b' :: r)
      = (match skipWs r with
         | '\x7d' :: r2 => some (.obj [], r2)
         | r2 => (parseFields k r2).map (fun p => (.obj p.1, p.2))) := rfl

theorem parseElems_succ (k : Nat) (cs : Str) :
    parseElems (k + 1) cs
      = (match parseVal k cs with
         | none => none
         | some (v, r) =>
           match skipWs r with
           | ',' :: r2 => (parseElems k r2).map (fun p => (v :: p.1, p.2))
           | ']' :: r2 => some ([v], r2)
           | _ => none) := rfl

theorem parseFields_succ_quote (k : Nat) (r : Str) :
    parseFields (k + 1) ('"' :: r)
      = (match parseStrA r with
         | none => none
         | some (k2, r1) =>
           match skipWs r1 with
           | ':' :: r2 =>
             match parseVal k r2 with
             | none => none
             | some (v, r3) =>
               match skipWs r3 with
               | ',' :: r4 => (parseFields k r4).map (fun p => ((k2, v) :: p.1, p.2))
               | '\x7d' :: r4 => some ([(k2, v)], r4)
               | _ => none
           | _ => none) := rfl

theorem parse_dump (f : Nat) :
    (∀ (v : JValue) (rest : Str), szV v ≤ f →
      (∀ c cs, rest = c :: cs → c.isDigit = false) →
      parseVal f (dumpV v ++ rest) = some (v, rest)) ∧
    (∀ (x : JValue) (t : List JValue) (rest : Str), szL (x :: t) ≤ f →
      parseElems f (dumpV x ++ (dumpElems t ++ (']' :: rest))) = some (x :: t, rest)) ∧
    (∀ (k2 : Str) (v : JValue) (fs : List (Str × JValue)) (rest : Str),
      szF ((k2, v) :: fs) ≤ f →
      parseFields f (dumpField (k2, v) ++ (dumpFields fs ++ ('\x7d' :: rest)))
        = some ((k2, v) :: fs, rest)) := by
  induction f with
  | zero =>
    refine ⟨?_, ?_, ?_⟩
    · intro v rest hsz _
      exact absurd hsz (by have := szV_pos v; omega)
    · intro x t rest hsz
      have hexp : szL (x :: t) = 1 + szV x + szL t := rfl
      exact absurd hsz (by omega)
    · intro k2 v fs rest hsz
      have hexp : szF ((k2, v) :: fs) = 1 + szV v + szF fs := rfl
      exact absurd hsz (by omega)
  | succ k ih =>
    obtain ⟨ihV, ihE, ihF⟩ := ih
    refine ⟨?_, ?_, ?_⟩
    · intro v rest hsz hrest
      cases v with
      | null => rfl
      | bool b => cases b <;> rfl
      | num n =>
        show parseVal (k + 1) (intChars n ++ rest) = some (.num n, rest)
        unfold intChars
        by_cases hneg : n < 0
        · rw [if_pos hneg]
          show (parseDigs (natChars n.natAbs ++ rest)).map
              (fun p => (JValue.num (-(Int.ofNat p.1)), p.2)) = some (.num n, rest)
          rw [parseDigs_natChars _ _ hrest]
          show some (JValue.num (-(Int.ofNat n.natAbs)), rest) = some (JValue.num n, rest)
          have hn : -(Int.ofNat n.natAbs) = n := by
            simp only [Int.ofNat_eq_coe]
            omega
          rw [hn]
        · rw [if_neg hneg]
          obtain ⟨d, hd10, ds, hds⟩ :=
            natCharsAux_head (n.toNat + 1) n.toNat (Nat.succ_ne_zero _)
          show parseVal (k + 1) (natChars n.toNat ++ rest) = some (.num n, rest)
          have hpd : parseDigs (digitChar d :: (ds ++ rest)) = some (n.toNat, rest) := by
            rw [show digitChar d :: (ds ++ rest) = (digitChar d :: ds) ++ rest from rfl]
            rw [show (digitChar d :: ds) = natChars n.toNat from by
              unfold natChars; rw [hds]]
            exact parseDigs_natChars n.toNat rest hrest
          unfold natChars
          rw [hds]
          show parseVal (k + 1) (digitChar d :: (ds ++ rest)) = some (.num n, rest)
          unfold parseVal
          rw [skipWs_cons_of_not_ws _ _ ((notSpecial_digitChar d hd10).2.2.2.2.2.2.2.2.1)]
          split
          · rename_i heq
            exact absurd (List.cons.inj heq).1 (digitChar_ne_lit d hd10).1
          · rename_i heq
            exact absurd (List.cons.inj heq).1 (digitChar_ne_lit d hd10).2.1
          · rename_i heq
            exact absurd (List.cons.inj heq).1 (digitChar_ne_lit d hd10).2.2.1
          · rename_i heq
            exact absurd (List.cons.inj heq).1 (notSpecial_digitChar d hd10).1
          · rename_i heq
            exact absurd (List.cons.inj heq).1 (digitChar_ne_lit d hd10).2.2.2
          · rename_i heq
            exact absurd (List.cons.inj heq).1 (notSpecial_digitChar d hd10).2.2.2.1
          · rename_i heq
            exact absurd (List.cons.inj heq).1 (notSpecial_digitChar d hd10).2.1
          · rename_i c2 r heq
            obtain ⟨hc2, hr⟩ := List.cons.inj heq
            rw [if_pos (by rw [← hc2]; exact (notSpecial_digitChar d hd10).2.2.2.2.2.2.2.1)]
            rw [← hc2, ← hr, hpd]
            show some (JValue.num (Int.ofNat n.toNat), rest) = some (JValue.num n, rest)
            have hn : Int.ofNat n.toNat = n := by
              simp only [Int.ofNat_eq_coe]
              omega
            rw [hn]
          · rename_i heq
            exact List.noConfusion heq
      | str s =>
        show (parseStrA ((escChars s ++ ['"']) ++ rest)).map
            (fun p => (JValue.str p.1, p.2)) = some (.str s, rest)
        rw [List.append_assoc]
        show (parseStrA (escChars s ++ ('"' :: rest))).map
            (fun p => (JValue.str p.1, p.2)) = some (.str s, rest)
        rw [parseStrA_escChars]
        rfl
      | arr xs =>
        cases xs with
        | nil => rfl
        | cons x t =>
          show parseVal (k + 1)
              ('[' :: (((dumpV x ++ dumpElems t) ++ [']']) ++ rest))
            = some (.arr (x :: t), rest)
          rw [parseVal_succ_lbrack]
          have hre : ((dumpV x ++ dumpElems t) ++ [']']) ++ rest
              = dumpV x ++ (dumpElems t ++ (']' :: rest)) := by
            simp [List.append_assoc]
          rw [hre]
          obtain ⟨c, cs, hdump, hws, hne1, hne2⟩ := dumpV_head x
          rw [hdump]
          rw [show (c :: cs) ++ (dumpElems t ++ (']' :: rest))
              = c :: (cs ++ (dumpElems t ++ (']' :: rest))) from rfl]
          rw [skipWs_cons_of_not_ws _ _ hws]
          split
          · rename_i r2 heq
            exact absurd (List.cons.inj heq).1 hne1
          · rw [show c :: (cs ++ (dumpElems t ++ (']' :: rest)))
                = (c :: cs) ++ (dumpElems t ++ (']' :: rest)) from rfl, ← hdump]
            rw [ihE x t rest (by
              have hexp : szV (.arr (x :: t)) = 1 + szL (x :: t) := rfl
              omega)]
            rfl
      | obj fs =>
        cases fs with
        | nil => rfl
        | cons f0 t =>
          obtain ⟨k2, v2⟩ := f0
          show parseVal (k + 1)
              ('\x7b' :: (((dumpField (k2, v2) ++ dumpFields t) ++ ['\x7d']) ++ rest))
            = some (.obj ((k2, v2) :: t), rest)
          rw [parseVal_succ_lbrace]
          have hre : ((dumpField (k2, v2) ++ dumpFields t) ++ ['\x7d']) ++ rest
              = dumpField (k2, v2) ++ (dumpFields t ++ ('\x7d' :: rest)) := by
            simp [List.append_assoc]
          rw [hre]
          show (parseFields k (dumpField (k2, v2) ++ (dumpFields t ++ ('\x7d' :: rest)))).map
              (fun p => (JValue.obj p.1, p.2)) = some (.obj ((k2, v2) :: t), rest)
          rw [ihF k2 v2 t rest (by
            have hexp : szV (.obj ((k2, v2) :: t)) = 1 + szF ((k2, v2) :: t) := rfl
            omega)]
          rfl
    · intro x t rest hsz
      have hexp : szL (x :: t) = 1 + szV x + szL t := rfl
      rw [parseElems_succ]
      cases t with
      | nil =>
        rw [show dumpElems ([] : List JValue) ++ (']' :: rest) = ']' :: rest from rfl]
        rw [ihV x (']' :: rest) (by have := szL_pos ([] : List JValue); omega)
          (fun c cs h => by rw [← (List.cons.inj h).1]; decide)]
        show (match skipWs (']' :: rest) with
              | ',' :: r2 => (parseElems k r2).map (fun p => (x :: p.1, p.2))
              | ']' :: r2 => some ([x], r2)
              | _ => none) = some ([x], rest)
        rw [skipWs_cons_of_not_ws _ _ (by decide)]
        rfl
      | cons y t2 =>
        have hexp2 : szL (y :: t2) = 1 + szV y + szL t2 := rfl
        rw [show dumpElems (y :: t2) ++ (']' :: rest)
            = ',' :: ' ' :: (dumpV y ++ (dumpElems t2 ++ (']' :: rest))) from by
          show (',' :: ' ' :: (dumpV y ++ dumpElems t2)) ++ (']' :: rest) = _
          simp [List.append_assoc]]
        rw [ihV x _ (by have := szL_pos t2; have := szV_pos y; omega)
          (fun c cs h => by rw [← (List.cons.inj h).1]; decide)]
        show (match skipWs (',' :: ' ' :: (dumpV y ++ (dumpElems t2 ++ (']' :: rest)))) with
              | ',' :: r2 => (parseElems k r2).map (fun p => (x :: p.1, p.2))
              | ']' :: r2 => some ([x], r2)
              | _ => none) = some (x :: y :: t2, rest)
        rw [skipWs_cons_of_not_ws _ _ (by decide)]
        show (parseElems k (' ' :: (dumpV y ++ (dumpElems t2 ++ (']' :: rest))))).map
            (fun p => (x :: p.1, p.2)) = some (x :: y :: t2, rest)
        rw [parseElems_cons_ws _ _ _ (by decide)]
        rw [ihE y t2 rest (by have := szV_pos x; omega)]
        rfl
    · intro k2 v fs rest hsz
      have hexp : szF ((k2, v) :: fs) = 1 + szV v + szF fs := rfl
      show parseFields (k + 1)
          ('"' :: ((escChars k2 ++ ('"' :: ':' :: ' ' :: dumpV v))
            ++ (dumpFields fs ++ ('\x7d' :: rest)))) = some ((k2, v) :: fs, rest)
      rw [parseFields_succ_quote]
      have hre : (escChars k2 ++ ('"' :: ':' :: ' ' :: dumpV v))
            ++ (dumpFields fs ++ ('\x7d' :: rest))
          = escChars k2
            ++ ('"' :: (':' :: ' ' :: (dumpV v ++ (dumpFields fs ++ ('\x7d' :: rest))))) := by
        simp [List.append_assoc]
      rw [hre, parseStrA_escChars]
      show (match parseVal k (' ' :: (dumpV v ++ (dumpFields fs ++ ('\x7d' :: rest)))) with
            | none => none
            | some (v2, r3) =>
              match skipWs r3 with
              | ',' :: r4 => (parseFields k r4).map (fun p => ((k2, v2) :: p.1, p.2))
              | '\x7d' :: r4 => some ([(k2, v2)], r4)
              | _ => none) = some ((k2, v) :: fs, rest)
      rw [parseVal_cons_ws _ _ _ (by decide)]
      rw [ihV v _ (by have := szF_pos fs; omega) (fun c cs h => by
        cases fs with
        | nil =>
          rw [show dumpFields ([] : List (Str × JValue)) ++ ('\x7d' :: rest)
              = '\x7d' :: rest from rfl] at h
          rw [← (List.cons.inj h).1]
          decide
        | cons f2 t2 =>
          rw [show dumpFields (f2 :: t2) ++ ('\x7d' :: rest)
              = ',' :: ((' ' :: (dumpField f2 ++ dumpFields t2)) ++ ('\x7d' :: rest))
              from rfl] at h
          rw [← (List.cons.inj h).1]
          decide)]
      cases fs with
      | nil =>
        rw [show dumpFields ([] : List (Str × JValue)) ++ ('\x7d' :: rest)
            = '\x7d' :: rest from rfl]
        rfl
      | cons f2 t2 =>
        obtain ⟨k3, v3⟩ := f2
        have hexp2 : szF ((k3, v3) :: t2) = 1 + szV v3 + szF t2 := rfl
        rw [show dumpFields ((k3, v3) :: t2) ++ ('\x7d' :: rest)
            = ',' :: ' ' :: (dumpField (k3, v3) ++ (dumpFields t2 ++ ('\x7d' :: rest))) from by
          show (',' :: ' ' :: (dumpField (k3, v3) ++ dumpFields t2)) ++ ('\x7d' :: rest) = _
          simp [List.append_assoc]]
        show (parseFields k
            (' ' :: (dumpField (k3, v3) ++ (dumpFields t2 ++ ('\x7d' :: rest))))).map
            (fun p => ((k2, v) :: p.1, p.2)) = some ((k2, v) :: (k3, v3) :: t2, rest)
        rw [parseFields_cons_ws _ _ _ (by decide)]
        rw [ihF k3 v3 t2 rest (by have := szV_pos v; omega)]
        rfl

theorem intChars_ne_nil (n : Int) : intChars n ≠ [] := by
  unfold intChars natChars
  by_cases h : n < 0
  · rw [if_pos h]
    exact List.cons_ne_nil _ _
  · rw [if_neg h]
    exact natCharsAux_ne_nil _ _ (Nat.succ_ne_zero _)

theorem dumpV_ne_nil (v : JValue) : dumpV v ≠ [] := by
  obtain ⟨c, cs, hd, -, -, -⟩ := dumpV_head v
  rw [hd]
  exact List.cons_ne_nil _ _

mutual
theorem szV_le (v : JValue) : szV v ≤ 2 * (dumpV v).length := by
  cases v with
  | null => decide
  | bool b => cases b <;> decide
  | num n =>
    have h1 : 1 ≤ (intChars n).length := List.length_pos.mpr (intChars_ne_nil n)
    show szV (.num n) ≤ 2 * (intChars n).length
    unfold szV
    omega
  | str s =>
    have h1 : (dumpV (.str s)).length = (escChars s).length + 2 := by
      show ('"' :: (escChars s ++ ['"'])).length = _
      simp only [List.length_cons, List.length_append, List.length_singleton, List.length_nil]
      try omega
    unfold szV
    omega
  | arr xs =>
    cases xs with
    | nil => decide
    | cons x t =>
      have hx := szV_le x
      have ht := szL_le t
      have h1 : (dumpV (.arr (x :: t))).length
          = (dumpV x).length + (dumpElems t).length + 2 := by
        show ('[' :: ((dumpV x ++ dumpElems t) ++ [']'])).length = _
        simp only [List.length_cons, List.length_append, List.length_singleton, List.length_nil]
        try omega
      have h2 : szV (.arr (x :: t)) = 1 + (1 + szV x + szL t) := rfl
      omega
  | obj fs =>
    cases fs with
    | nil => decide
    | cons f t =>
      obtain ⟨k2, v2⟩ := f
      have hv := szV_le v2
      have ht := szF_le t
      have h1 : (dumpV (.obj ((k2, v2) :: t))).length
          = (dumpField (k2, v2)).length + (dumpFields t).length + 2 := by
        show ('\x7b' :: ((dumpField (k2, v2) ++ dumpFields t) ++ ['\x7d'])).length = _
        simp only [List.length_cons, List.length_append, List.length_singleton, List.length_nil]
        try omega
      have h2 : (dumpField (k2, v2)).length = (escChars k2).length + (dumpV v2).length + 4 := by
        show ('"' :: (escChars k2 ++ ('"' :: ':' :: ' ' :: dumpV v2))).length = _
        simp only [List.length_cons, List.length_append, List.length_singleton, List.length_nil]
        try omega
      have h3 : szV (.obj ((k2, v2) :: t)) = 1 + (1 + szV v2 + szF t) := rfl
      omega

theorem szL_le (xs : List JValue) : szL xs ≤ 2 * (dumpElems xs).length + 1 := by
  cases xs with
  | nil => decide
  | cons x t =>
    have hx := szV_le x
    have ht := szL_le t
    have h1 : (dumpElems (x :: t)).length = (dumpV x).length + (dumpElems t).length + 2 := by
      show (',' :: ' ' :: (dumpV x ++ dumpElems t)).length = _
      simp only [List.length_cons, List.length_append, List.length_singleton, List.length_nil]
      try omega
    have h2 : szL (x :: t) = 1 + szV x + szL t := rfl
    omega

theorem szF_le (fs : List (Str × JValue)) : szF fs ≤ 2 * (dumpFields fs).length + 1 := by
  cases fs with
  | nil => decide
  | cons f t =>
    obtain ⟨k2, v2⟩ := f
    have hv := szV_le v2
    have ht := szF_le t
    have h1 : (dumpFields ((k2, v2) :: t)).length
        = (dumpField (k2, v2)).length + (dumpFields t).length + 2 := by
      show (',' :: ' ' :: (dumpField (k2, v2) ++ dumpFields t)).length = _
      simp only [List.length_cons, List.length_append, List.length_singleton, List.length_nil]
      try omega
    have h2 : (dumpField (k2, v2)).length = (escChars k2).length + (dumpV v2).length + 4 := by
      show ('"' :: (escChars k2 ++ ('"' :: ':' :: ' ' :: dumpV v2))).length = _
      simp
      omega
    have h3 : szF ((k2, v2) :: t) = 1 + szV v2 + szF t := rfl
    omega
end

theorem jsonParse_dumpV (v : JValue) : jsonParse (dumpV v) = some v := by
  unfold jsonParse
  have h := (parse_dump (2 * (dumpV v).length + 2)).1 v [] (by have := szV_le v; omega)
    (fun c cs hcc => List.noConfusion hcc)
  rw [List.append_nil] at h
  rw [h]
  rfl

theorem getLast?_append_right (A B : Str) (h : B ≠ []) :
    (A ++ B).getLast? = B.getLast? := by
  induction A with
  | nil => rfl
  | cons a A2 ih =>
    rw [show (a :: A2) ++ B = a :: (A2 ++ B) from rfl]
    rw [getLast?_cons_of_ne_nil _ _ (by simp [h])]
    exact ih

theorem dumpField_ne_nil (p : Str × JValue) : dumpField p ≠ [] := by
  obtain ⟨k2, v⟩ := p
  show '"' :: (escChars k2 ++ ('"' :: ':' :: ' ' :: dumpV v)) ≠ []
  exact List.cons_ne_nil _ _

theorem dumpField_last (p : Str × JValue) :
    ∀ c, (dumpField p).getLast? = some c → isPyWs c = false := by
  obtain ⟨k2, v⟩ := p
  intro c hc
  rw [show dumpField (k2, v) = '"' :: (escChars k2 ++ ('"' :: ':' :: ' ' :: dumpV v))
    from rfl] at hc
  rw [getLast?_cons_of_ne_nil _ _ (by simp)] at hc
  rw [getLast?_append_right _ _ (List.cons_ne_nil _ _)] at hc
  rw [getLast?_cons_of_ne_nil _ _ (by simp [dumpV_ne_nil v])] at hc
  rw [getLast?_cons_of_ne_nil _ _ (by simp [dumpV_ne_nil v])] at hc
  rw [getLast?_cons_of_ne_nil _ _ (dumpV_ne_nil v)] at hc
  exact dumpV_last_not_ws v c hc

theorem dumpTail_last (f0 : Str × JValue) (t : List (Str × JValue)) :
    ∀ c, (dumpField f0 ++ dumpFields t).getLast? = some c → isPyWs c = false := by
  induction t generalizing f0 with
  | nil =>
    intro c hc
    rw [show dumpFields ([] : List (Str × JValue)) = [] from rfl, List.append_nil] at hc
    exact dumpField_last f0 c hc
  | cons f1 t1 ih =>
    intro c hc
    rw [show dumpFields (f1 :: t1) = ',' :: ' ' :: (dumpField f1 ++ dumpFields t1)
      from rfl] at hc
    rw [getLast?_append_right _ _ (List.cons_ne_nil _ _)] at hc
    rw [getLast?_cons_of_ne_nil _ _ (by simp)] at hc
    rw [getLast?_cons_of_ne_nil _ _ (by simp [dumpField_ne_nil f1])] at hc
    exact ih f1 c hc

theorem closeA (fs : List (Str × JValue)) :
    closeTruncatedJson ((dumpV (.obj fs)).dropLast) = dumpV (.obj fs) := by
  cases fs with
  | nil => rfl
  | cons f0 t =>
    have hdl : (dumpV (.obj (f0 :: t))).dropLast
        = '\x7b' :: (dumpField f0 ++ dumpFields t) := by
      show (('\x7b' :: (dumpField f0 ++ dumpFields t)) ++ ['\x7d']).dropLast = _
      rw [List.dropLast_concat]
    rw [hdl]
    unfold closeTruncatedJson
    have hlast : ∀ c, ('\x7b' :: (dumpField f0 ++ dumpFields t)).getLast? = some c →
        isPyWs c = false := by
      intro c hc
      rw [getLast?_cons_of_ne_nil _ _ (by simp [dumpField_ne_nil f0])] at hc
      exact dumpTail_last f0 t c hc
    rw [rstripCh_eq_self_of_last _ hlast]
    rw [if_neg (by simp)]
    rw [List.foldl_cons]
    rw [show scanChar ⟨false, false, []⟩ '\x7b' = ⟨false, false, ['\x7b']⟩ from rfl]
    rw [List.foldl_append, scan_dumpField f0, scan_dumpFields t]
    show ('\x7b' :: (dumpField f0 ++ dumpFields t)) ++ [] ++ ['\x7d'] = _
    rw [List.append_nil]
    rfl

theorem dumpFields_concat (t : List (Str × JValue)) (p : Str × JValue) :
    dumpFields (t ++ [p]) = dumpFields t ++ (',' :: ' ' :: dumpField p) := by
  induction t with
  | nil =>
    show ',' :: ' ' :: (dumpField p ++ dumpFields []) = _
    rw [show dumpFields ([] : List (Str × JValue)) = [] from rfl, List.append_nil]
    rfl
  | cons f0 t1 ih =>
    show ',' :: ' ' :: (dumpField f0 ++ dumpFields (t1 ++ [p])) = _
    rw [ih]
    show _ = (',' :: ' ' :: (dumpField f0 ++ dumpFields t1)) ++ (',' :: ' ' :: dumpField p)
    simp [List.append_assoc]

theorem dumpObj_last_str (fs : List (Str × JValue)) (k2 : Str) :
    ∃ P, (∀ w : Str, dumpV (.obj (fs ++ [(k2, .str w)]))
        = (P ++ escChars w) ++ ['"', '\x7d']) ∧
      P.getLast? = some '"' ∧
      P.foldl scanChar ⟨false, false, []⟩ = ⟨false, true, ['\x7b']⟩ := by
  cases fs with
  | nil =>
    refine ⟨'\x7b' :: '"' :: (escChars k2 ++ ['"', ':', ' ', '"']), ?_, ?_, ?_⟩
    · intro w
      show '\x7b' :: ((dumpField (k2, .str w) ++ dumpFields []) ++ ['\x7d']) = _
      rw [show dumpFields ([] : List (Str × JValue)) = [] from rfl, List.append_nil]
      show '\x7b' :: (('"' :: (escChars k2 ++ ('"' :: ':' :: ' ' ::
        ('"' :: (escChars w ++ ['"']))))) ++ ['\x7d']) = _
      simp [List.append_assoc]
    · rw [show '\x7b' :: '"' :: (escChars k2 ++ ['"', ':', ' ', '"'])
          = ('\x7b' :: '"' :: (escChars k2 ++ ['"', ':', ' '])) ++ ['"'] from by
        simp [List.append_assoc]]
      exact List.getLast?_concat _
    · rw [List.foldl_cons, List.foldl_cons]
      rw [show scanChar (scanChar ⟨false, false, []⟩ '\x7b') '"'
          = ⟨false, true, ['\x7b']⟩ from rfl]
      rw [List.foldl_append, scan_escChars]
      rfl
  | cons f0 t =>
    refine ⟨('\x7b' :: (dumpField f0 ++ dumpFields t))
        ++ (',' :: ' ' :: '"' :: (escChars k2 ++ ['"', ':', ' ', '"'])), ?_, ?_, ?_⟩
    · intro w
      show '\x7b' :: ((dumpField f0 ++ dumpFields (t ++ [(k2, .str w)])) ++ ['\x7d']) = _
      rw [dumpFields_concat]
      show '\x7b' :: ((dumpField f0 ++ (dumpFields t ++ (',' :: ' ' ::
        ('"' :: (escChars k2 ++ ('"' :: ':' :: ' ' ::
          ('"' :: (escChars w ++ ['"'])))))))) ++ ['\x7d']) = _
      simp [List.append_assoc]
    · rw [getLast?_append_right _ _ (List.cons_ne_nil _ _)]
      rw [show ',' :: ' ' :: '"' :: (escChars k2 ++ ['"', ':', ' ', '"'])
          = (',' :: ' ' :: '"' :: (escChars k2 ++ ['"', ':', ' '])) ++ ['"'] from by
        simp [List.append_assoc]]
      exact List.getLast?_concat _
    · simp only [List.foldl_append, List.foldl_cons, List.foldl_nil]
      rw [show scanChar ⟨false, false, []⟩ '\x7b' = ⟨false, false, ['\x7b']⟩ from rfl]
      rw [scan_dumpField f0, scan_dumpFields t]
      rw [show scanChar ⟨false, false, ['\x7b']⟩ ',' = ⟨false, false, ['\x7b']⟩ from rfl]
      rw [show scanChar ⟨false, false, ['\x7b']⟩ ' ' = ⟨false, false, ['\x7b']⟩ from rfl]
      rw [show scanChar ⟨false, false, ['\x7b']⟩ '"' = ⟨false, true, ['\x7b']⟩ from rfl]
      rw [scan_escChars]
      rfl

theorem closeB_core (P v1 : Str) (hlastq : P.getLast? = some '"')
    (hscan : P.foldl scanChar ⟨false, false, []⟩ = ⟨false, true, ['\x7b']⟩)
    (hlast : ∀ c, (escChars v1).getLast? = some c → isPyWs c = false) :
    closeTruncatedJson (P ++ escChars v1) = (P ++ escChars v1) ++ ['"', '\x7d'] := by
  have hPne : P ≠ [] := by
    intro he
    rw [he] at hlastq
    exact Option.noConfusion hlastq
  have hrs : rstripCh (P ++ escChars v1) = P ++ escChars v1 := by
    apply rstripCh_eq_self_of_last
    intro c hc
    cases hev : escChars v1 with
    | nil =>
      rw [hev, List.append_nil, hlastq] at hc
      rw [← Option.some.inj hc]
      decide
    | cons e es =>
      rw [getLast?_append_right _ _ (by simp [hev])] at hc
      exact hlast c hc
  unfold closeTruncatedJson
  rw [hrs]
  rw [if_neg (by simp [hPne])]
  rw [List.foldl_append, hscan, scan_escChars]
  show ((P ++ escChars v1) ++ ['"']) ++ ['\x7d'] = _
  simp [List.append_assoc]

theorem escChars_append (v1 v2 : Str) :
    escChars (v1 ++ v2) = escChars v1 ++ escChars v2 := by
  unfold escChars
  induction v1 with
  | nil => rfl
  | cons c t ih =>
    show escCh c ++ (t ++ v2).flatMap escCh = (escCh c ++ t.flatMap escCh) ++ v2.flatMap escCh
    rw [ih, List.append_assoc]

theorem truncation_family_B (fs : List (Str × JValue)) (k2 v1 v2 : Str)
    (hlast : ∀ c, (escChars v1).getLast? = some c → isPyWs c = false) :
    closeTruncatedJson ((dumpV (.obj (fs ++ [(k2, .str (v1 ++ v2))]))).take
        ((dumpV (.obj (fs ++ [(k2, .str (v1 ++ v2))]))).length
          - ((escChars v2).length + 2)))
      = dumpV (.obj (fs ++ [(k2, .str v1)])) := by
  obtain ⟨P, hall, hlastq, hscan⟩ := dumpObj_last_str fs k2
  have hesc : escChars (v1 ++ v2) = escChars v1 ++ escChars v2 := escChars_append v1 v2
  have hL : dumpV (.obj (fs ++ [(k2, .str (v1 ++ v2))]))
      = (P ++ escChars v1) ++ (escChars v2 ++ ['"', '\x7d']) := by
    rw [hall (v1 ++ v2), hesc]
    simp [List.append_assoc]
  have htake : (dumpV (.obj (fs ++ [(k2, .str (v1 ++ v2))]))).take
      ((dumpV (.obj (fs ++ [(k2, .str (v1 ++ v2))]))).length
        - ((escChars v2).length + 2))
      = P ++ escChars v1 := by
    rw [hL]
    have hlen : ((P ++ escChars v1) ++ (escChars v2 ++ ['"', '\x7d'])).length
        - ((escChars v2).length + 2) = (P ++ escChars v1).length := by
      simp only [List.length_append, List.length_cons, List.length_nil]
      omega
    rw [hlen]
    exact List.take_left _ _
  rw [htake, closeB_core P v1 hlastq hscan hlast]
  rw [hall v1]

/-- C3 (counterexample): the claim fails as stated — on the truncated
serialization `⦃"song": 5` of the valid object `⦃"song": 5⦄` the
truncation-close strategy fails overall because `_normalize` raises on
the recovered object, and on `⦃"a": "x\` (a cut inside an open string
that splits the two-character escape of a newline) the closing quote is
itself escaped and the close-then-parse step fails. -/
theorem truncation_close_cex :
    strat2 ("\x7b\"song\": 5".toList) = none ∧
    strat2 ("\x7b\"a\": \"x\\".toList) = none := ⟨rfl, rfl⟩

/-- C3 (amended): for a serialized object with only the closing brace
removed, `_close_truncated_json` restores the exact serialization, the
parse recovers the exact object (all fields match), and the whole
strategy-2 pipeline succeeds whenever `_normalize` accepts the object;
for a cut inside the final string-valued field — at an escape-sequence
boundary, the kept prefix not ending in whitespace after escaping — the
close restores the serialization of the object whose last field holds
the kept prefix of the string, so every other field matches the
original. -/
theorem truncation_close_amended :
    (∀ fs : List (Str × JValue),
      closeTruncatedJson ((dumpV (.obj fs)).dropLast) = dumpV (.obj fs) ∧
      jsonParse (dumpV (.obj fs)) = some (.obj fs) ∧
      ∀ r, normalizeV (.obj fs) = some r →
        strat2 ((dumpV (.obj fs)).dropLast) = some r) ∧
    (∀ (fs : List (Str × JValue)) (k2 v1 v2 : Str),
      (∀ c, (escChars v1).getLast? = some c → isPyWs c = false) →
      closeTruncatedJson ((dumpV (.obj (fs ++ [(k2, .str (v1 ++ v2))]))).take
          ((dumpV (.obj (fs ++ [(k2, .str (v1 ++ v2))]))).length
            - ((escChars v2).length + 2)))
        = dumpV (.obj (fs ++ [(k2, .str v1)])) ∧
      jsonParse (dumpV (.obj (fs ++ [(k2, .str v1)])))
        = some (.obj (fs ++ [(k2, .str v1)])) ∧
      ∀ r, normalizeV (.obj (fs ++ [(k2, .str v1)])) = some r →
        strat2 ((dumpV (.obj (fs ++ [(k2, .str (v1 ++ v2))]))).take
          ((dumpV (.obj (fs ++ [(k2, .str (v1 ++ v2))]))).length
            - ((escChars v2).length + 2))) = some r) := by
  constructor
  · intro fs
    refine ⟨closeA fs, jsonParse_dumpV _, ?_⟩
    intro r hr
    unfold strat2
    rw [closeA fs, jsonParse_dumpV]
    show normalizeV (.obj fs) = some r
    exact hr
  · intro fs k2 v1 v2 hlast
    refine ⟨truncation_family_B fs k2 v1 v2 hlast, jsonParse_dumpV _, ?_⟩
    intro r hr
    unfold strat2
    rw [truncation_family_B fs k2 v1 v2 hlast, jsonParse_dumpV]
    show normalizeV (.obj (fs ++ [(k2, .str v1)])) = some r
    exact hr

theorem isStrO_some (o : Option JValue) (h : isStrO o = true) : ∃ s, o = some (.str s) := by
  cases o with
  | none => exact Bool.noConfusion h
  | some v =>
    cases v with
    | str s => exact ⟨s, rfl⟩
    | null => exact Bool.noConfusion h
    | bool b => exact Bool.noConfusion h
    | num n => exact Bool.noConfusion h
    | arr xs => exact Bool.noConfusion h
    | obj fs => exact Bool.noConfusion h

theorem isNumO_some (o : Option JValue) (h : isNumO o = true) : ∃ n : Int, o = some (.num n) := by
  cases o with
  | none => exact Bool.noConfusion h
  | some v =>
    cases v with
    | num n => exact ⟨n, rfl⟩
    | null => exact Bool.noConfusion h
    | bool b => exact Bool.noConfusion h
    | str s => exact Bool.noConfusion h
    | arr xs => exact Bool.noConfusion h
    | obj fs => exact Bool.noConfusion h

theorem isArrO_some (o : Option JValue) (h : isArrO o = true) :
    ∃ xs : List JValue, o = some (.arr xs) := by
  cases o with
  | none => exact Bool.noConfusion h
  | some v =>
    cases v with
    | arr xs => exact ⟨xs, rfl⟩
    | null => exact Bool.noConfusion h
    | bool b => exact Bool.noConfusion h
    | num n => exact Bool.noConfusion h
    | str s => exact Bool.noConfusion h
    | obj fs => exact Bool.noConfusion h

theorem isBoolO_some (o : Option JValue) (h : isBoolO o = true) :
    ∃ b : Bool, o = some (.bool b) := by
  cases o with
  | none => exact Bool.noConfusion h
  | some v =>
    cases v with
    | bool b => exact ⟨b, rfl⟩
    | null => exact Bool.noConfusion h
    | num n => exact Bool.noConfusion h
    | str s => exact Bool.noConfusion h
    | arr xs => exact Bool.noConfusion h
    | obj fs => exact Bool.noConfusion h

theorem assocBpm_mem (t : List (Str × Int)) (g : Str) (n : Int)
    (h : assocBpm t g = some n) : n ∈ t.map Prod.snd := by
  induction t with
  | nil => exact Option.noConfusion h
  | cons p r ih =>
    obtain ⟨k, v⟩ := p
    unfold assocBpm at h
    split at h
    · exact (Option.some.inj h) ▸ List.mem_cons_self _ _
    · exact List.mem_cons_of_mem _ (ih h)

theorem bpmDefault_ne_zero (g : Str) : bpmDefault g ≠ 0 := by
  unfold bpmDefault
  cases h : assocBpm (bpmTable.map (fun p => (p.1.toList, p.2))) g with
  | none => decide
  | some n =>
    have hm := assocBpm_mem _ _ _ h
    have hall : ∀ x ∈ (bpmTable.map (fun p => (p.1.toList, p.2))).map Prod.snd,
        x ≠ (0 : Int) := by decide
    exact hall n hm

/-- `_normalize` on a canonical StructuredResult dict with nonzero bpm:
only the string fields get re-cleaned. -/
theorem normalizeV_mkSR (am title voice genre : Str) (bpm : Int) (mood : List JValue)
    (sound : Str) (structL : List JValue) (text arrN mixN : Str) (nc : Bool) (cq : Str)
    (hb : bpm ≠ 0) :
    normalizeV (mkSR am title voice genre bpm mood sound structL text arrN mixN nc cq)
      = some (mkSR (cleanStr (.str am)) (cleanStr (.str title)) voice genre bpm mood
          (cleanStr (.str sound)) structL (cleanStr (.str text)) (cleanStr (.str arrN))
          (cleanStr (.str mixN)) nc cq) := by
  have ht : truthy (JValue.num bpm) = true := bne_iff_ne.mpr hb
  show (match pyInt (if truthy (JValue.num bpm) then JValue.num bpm
        else JValue.num (bpmDefault genre)) with
      | none => none
      | some b =>
        some (mkSR (cleanStr (JValue.str am)) (cleanStr (JValue.str title)) voice genre b mood
          (cleanStr (JValue.str sound)) structL (cleanStr (JValue.str text))
          (cleanStr (JValue.str arrN)) (cleanStr (JValue.str mixN)) nc cq))
      = some (mkSR (cleanStr (JValue.str am)) (cleanStr (JValue.str title)) voice genre bpm mood
          (cleanStr (JValue.str sound)) structL (cleanStr (JValue.str text))
          (cleanStr (JValue.str arrN)) (cleanStr (JValue.str mixN)) nc cq)
  rw [ht]
  rfl

/-- C4: `_normalize` is idempotent on every valid StructuredResult-shaped
input (all schema fields present with their declared types, bpm an
integer): normalizing a second time returns the first result unchanged. -/
theorem normalize_idempotent (x : JValue) (h : validSR x = true) :
    (normalizeV x).bind normalizeV = normalizeV x := by
  cases x with
  | null => exact Bool.noConfusion h
  | bool b => exact Bool.noConfusion h
  | num n => exact Bool.noConfusion h
  | str s => exact Bool.noConfusion h
  | arr xs => exact Bool.noConfusion h
  | obj fs =>
    simp only [validSR, pyIndex, Bool.and_eq_true] at h
    obtain ⟨⟨⟨⟨⟨ham, hsong⟩, hlyr⟩, hprod⟩, hnc⟩, hcq⟩ := h
    obtain ⟨a, hamE⟩ := isStrO_some _ ham
    obtain ⟨nc0, hncE⟩ := isBoolO_some _ hnc
    obtain ⟨cq0, hcqE⟩ := isStrO_some _ hcq
    cases hsE : assocFind fs kSong with
    | none => rw [hsE] at hsong; exact Bool.noConfusion hsong
    | some song =>
    rw [hsE] at hsong
    cases song with
    | null => exact Bool.noConfusion hsong
    | bool b => exact Bool.noConfusion hsong
    | num n => exact Bool.noConfusion hsong
    | str s => exact Bool.noConfusion hsong
    | arr xs => exact Bool.noConfusion hsong
    | obj sfs =>
    replace hsong : (isStrO (assocFind sfs kTitle)
        && isStrO (assocFind sfs kVoice)
        && isStrO (assocFind sfs kGenre)
        && isNumO (assocFind sfs kBpm)
        && isArrO (assocFind sfs kMoodTags)
        && isStrO (assocFind sfs kSoundDescription)) = true := hsong
    simp only [Bool.and_eq_true] at hsong
    obtain ⟨⟨⟨⟨⟨htit, hvoi⟩, hgen⟩, hbp⟩, hmo⟩, hsou⟩ := hsong
    obtain ⟨t0, htitE⟩ := isStrO_some _ htit
    obtain ⟨v0, hvoiE⟩ := isStrO_some _ hvoi
    obtain ⟨g0, hgenE⟩ := isStrO_some _ hgen
    obtain ⟨b0, hbpE⟩ := isNumO_some _ hbp
    obtain ⟨m0, hmoE⟩ := isArrO_some _ hmo
    obtain ⟨s0, hsouE⟩ := isStrO_some _ hsou
    cases hlE : assocFind fs kLyrics with
    | none => rw [hlE] at hlyr; exact Bool.noConfusion hlyr
    | some lyr =>
    rw [hlE] at hlyr
    cases lyr with
    | null => exact Bool.noConfusion hlyr
    | bool b => exact Bool.noConfusion hlyr
    | num n => exact Bool.noConfusion hlyr
    | str s => exact Bool.noConfusion hlyr
    | arr xs => exact Bool.noConfusion hlyr
    | obj lfs =>
    replace hlyr : (isArrO (assocFind lfs kStructure) && isStrO (assocFind lfs kText))
        = true := hlyr
    simp only [Bool.and_eq_true] at hlyr
    obtain ⟨hstr, htxt⟩ := hlyr
    obtain ⟨st0, hstrE⟩ := isArrO_some _ hstr
    obtain ⟨tx0, htxtE⟩ := isStrO_some _ htxt
    cases hpE : assocFind fs kProductionNotes with
    | none => rw [hpE] at hprod; exact Bool.noConfusion hprod
    | some prod =>
    rw [hpE] at hprod
    cases prod with
    | null => exact Bool.noConfusion hprod
    | bool b => exact Bool.noConfusion hprod
    | num n => exact Bool.noConfusion hprod
    | str s => exact Bool.noConfusion hprod
    | arr xs => exact Bool.noConfusion hprod
    | obj pfs =>
    replace hprod : (isStrO (assocFind pfs kArrangement) && isStrO (assocFind pfs kMixNotes))
        = true := hprod
    simp only [Bool.and_eq_true] at hprod
    obtain ⟨harr, hmix⟩ := hprod
    obtain ⟨ar0, harrE⟩ := isStrO_some _ harr
    obtain ⟨mx0, hmixE⟩ := isStrO_some _ hmix
    have hmo2 : pyList (JValue.arr m0) = some m0 := rfl
    have hst2 : pyList (JValue.arr st0) = some st0 := rfl
    by_cases hb0 : b0 = 0
    · subst hb0
      have hpi : pyInt (if truthy (JValue.num 0) then JValue.num 0
          else JValue.num (bpmDefault (pyStrV (JValue.str g0)))) = some (bpmDefault g0) := rfl
      have hx : normalizeV (.obj fs)
          = some (mkSR (cleanStr (.str a)) (cleanStr (.str t0)) v0 g0 (bpmDefault g0) m0
              (cleanStr (.str s0)) st0 (cleanStr (.str tx0)) (cleanStr (.str ar0))
              (cleanStr (.str mx0)) nc0 cq0) := by
        simp only [normalizeV, pyGet, Option.getD_some, hsE, hlE, hpE, hamE, htitE, hvoiE,
          hgenE, hbpE, hmoE, hsouE, hstrE, htxtE, harrE, hmixE, hncE, hcqE, hpi, hmo2, hst2]
        rfl
      rw [hx]
      exact (normalizeV_mkSR _ _ _ _ _ _ _ _ _ _ _ _ _ (bpmDefault_ne_zero g0)).trans
        (by simp only [cleanStr_str_idem])
    · have ht : truthy (JValue.num b0) = true := bne_iff_ne.mpr hb0
      have hpi : pyInt (if truthy (JValue.num b0) then JValue.num b0
          else JValue.num (bpmDefault (pyStrV (JValue.str g0)))) = some b0 := by
        rw [ht]
        rfl
      have hx : normalizeV (.obj fs)
          = some (mkSR (cleanStr (.str a)) (cleanStr (.str t0)) v0 g0 b0 m0
              (cleanStr (.str s0)) st0 (cleanStr (.str tx0)) (cleanStr (.str ar0))
              (cleanStr (.str mx0)) nc0 cq0) := by
        simp only [normalizeV, pyGet, Option.getD_some, hsE, hlE, hpE, hamE, htitE, hvoiE,
          hgenE, hbpE, hmoE, hsouE, hstrE, htxtE, harrE, hmixE, hncE, hcqE, hpi, hmo2, hst2]
        rfl
      rw [hx]
      exact (normalizeV_mkSR _ _ _ _ _ _ _ _ _ _ _ _ _ hb0).trans
        (by simp only [cleanStr_str_idem])

/-- C4 (witness): idempotence at the concrete valid StructuredResult
`_FALLBACK`. -/
theorem normalize_idempotent_witness :
    validSR FALLBACK = true ∧ (normalizeV FALLBACK).bind normalizeV = normalizeV FALLBACK :=
  ⟨rfl, normalize_idempotent FALLBACK rfl⟩

/-- C3 (witness): both amended truncation families at concrete inputs —
`⦃"a": 1` recovers `⦃"a": 1⦄` and normalizes, and the serialization of
`⦃"a": "xyz"⦄` cut to `⦃"a": "x` recovers `⦃"a": "x"⦄`. -/
theorem truncation_close_witness :
    strat2 ((dumpV (.obj [("a".toList, .num 1)])).dropLast)
      = some (mkSR [] [] "neutral".toList "pop".toList 120 [] [] defaultStructL
          [] [] [] false []) ∧
    closeTruncatedJson ((dumpV (.obj [("a".toList,
          .str ("x".toList ++ "yz".toList))])).take
        ((dumpV (.obj [("a".toList, .str ("x".toList ++ "yz".toList))])).length
          - ((escChars "yz".toList).length + 2)))
      = dumpV (.obj [("a".toList, .str "x".toList)]) :=
  ⟨(truncation_close_amended.1 [("a".toList, .num 1)]).2.2
      (mkSR [] [] "neutral".toList "pop".toList 120 [] [] defaultStructL [] [] [] false [])
      rfl,
   (truncation_close_amended.2 [] "a".toList "x".toList "yz".toList
      (by decide)).1⟩

end MiniAI
